import Mathlib

/-!
Verification of the Yes Chef session orchestrator (step-lock state machine,
speech gate, tool-call resolution loop, catalog matcher) against its
natural-language specification.

The definitions below are a shallow embedding of the TypeScript source
(`assistant-browser.ts`, `server.ts`, `recipe-store.ts`, `state.ts`).
JavaScript strings are modelled as Lean strings over their character lists
(the sources only ever handle ASCII-and-bullet text); JS numbers used for
scores and confidences are modelled as exact rationals, with an explicit
marker for NaN; timestamps are integers (milliseconds).  Regular-expression
tests from the source are embedded as executable character-list matchers
with JS word-boundary semantics.
-/

namespace YesChef

/-! ## JS string primitives -/

/-- JS whitespace (`\s`) restricted to the ASCII range, which is the only
whitespace the orchestrator's inputs contain. -/
def jsWs (c : Char) : Bool :=
  c = ' ' || c = '\t' || c = '\n' || c = '\r' || c = '\x0b' || c = '\x0c'

/-- ASCII lower-casing, matching `String.prototype.toLowerCase` on the
ASCII inputs the orchestrator handles. -/
def jsLower (s : String) : String := String.mk (s.toList.map Char.toLower)

/-- Trim of a character list (JS `String.prototype.trim` on ASCII). -/
def trimL (cs : List Char) : List Char :=
  ((cs.dropWhile fun c => jsWs c).reverse.dropWhile fun c => jsWs c).reverse

/-- JS `String.prototype.trim` on ASCII text. -/
def jsTrim (s : String) : String := String.mk (trimL s.toList)

/-- Split a character list at characters satisfying `p`, returning the
maximal runs of non-`p` characters (empty segments removed).  This is the
common JS idiom `s.split(<p-run regex>).filter(Boolean)`. -/
def splitTokAux (p : Char → Bool) : List Char → List Char → List (List Char)
  | [], acc => if acc = [] then [] else [acc.reverse]
  | c :: cs, acc =>
    if p c then
      if acc = [] then splitTokAux p cs []
      else acc.reverse :: splitTokAux p cs []
    else splitTokAux p cs (c :: acc)

def splitTok (p : Char → Bool) (cs : List Char) : List (List Char) :=
  splitTokAux p cs []

/-- Join character-list tokens with a single space (JS `join(" ")`). -/
def joinSp : List (List Char) → List Char
  | [] => []
  | [t] => t
  | t :: t2 :: ts => t ++ ' ' :: joinSp (t2 :: ts)

/-- JS `String.prototype.endsWith` (exact suffix). -/
def strEndsWith (s suffix : String) : Bool :=
  let cs := s.toList
  let sf := suffix.toList
  decide (sf.length ≤ cs.length) && decide (cs.drop (cs.length - sf.length) = sf)

/-- JS-style removal of the last `n` characters (`slice(0, -n)`). -/
def dropRightS (s : String) (n : Nat) : String :=
  String.mk (s.toList.take (s.toList.length - n))

/-- Character count of a string (JS `length` on ASCII text). -/
def strLen (s : String) : Nat := s.toList.length

/-- The whitespace-separated words of a string. -/
def wsTokens (s : String) : List String :=
  (splitTok jsWs s.toList).map String.mk

/-- Number of whitespace-separated words of a string. -/
def wordCountS (s : String) : Nat := (splitTok jsWs s.toList).length

/-! ## Embedded regular-expression matching -/

/-- JS word character (`\w` = `[A-Za-z0-9_]`). -/
def isWordCh (c : Char) : Bool :=
  ('a' ≤ c && c ≤ 'z') || ('A' ≤ c && c ≤ 'Z') || ('0' ≤ c && c ≤ '9') || c = '_'

/-- Case-insensitive literal match of `pat` inside `s` starting at index `i`. -/
def matchCIAt (pat : List Char) (s : List Char) (i : Nat) : Bool :=
  (List.range pat.length).all fun k =>
    match s.get? (i + k), pat.get? k with
    | some a, some b => a.toLower = b.toLower
    | _, _ => false

/-- Whether the character at index `i` of `s` is a word character
(out-of-range counts as a non-word position). -/
def wordChAt (s : List Char) (i : Nat) : Bool :=
  match s.get? i with
  | some c => isWordCh c
  | none => false

/-- Case-insensitive match of the literal `pat` at index `i` with JS word
boundaries (`\b`) on both sides.  All phrases this is used with start and
end in word characters, for which `\b` means exactly "the neighbouring
position is absent or a non-word character". -/
def boundedMatchAt (pat : List Char) (s : List Char) (i : Nat) : Bool :=
  matchCIAt pat s i &&
    (i = 0 || !wordChAt s (i - 1)) &&
    !wordChAt s (i + pat.length)

/-- `new RegExp(String.raw`\b(p1|p2|...)\b`, "i").test(s)` for literal
word-bounded alternatives. -/
def containsBounded (pats : List String) (s : String) : Bool :=
  let cs := s.toList
  (List.range (cs.length + 1)).any fun i =>
    pats.any fun p => boundedMatchAt p.toList cs i

/-- Number of word-bounded occurrences of `w` in `cs`
(JS `(text.match(/\bw\b/g) ?? []).length`). -/
def countBoundedWord (w : String) (cs : List Char) : Nat :=
  ((List.range (cs.length + 1)).filter fun i => boundedMatchAt w.toList cs i).length

/-- The apostrophe character, used literally by several source regexes. -/
def apos : Char := Char.ofNat 39

def apoS : String := String.mk [apos]

/-! ## Speech-classification predicates (assistant-browser.ts / server.ts) -/

/-- The fixed safety keyword set of
`/\b(stop|danger|urgent|fire|smoke|burn|hot oil|knife|raw chicken|gas)\b/i`. -/
def urgentPhrases : List String :=
  ["stop", "danger", "urgent", "fire", "smoke", "burn", "hot oil", "knife",
   "raw chicken", "gas"]

/-- `isUrgentMessage` from the source: the urgency regex test. -/
def isUrgentMessage (message : String) : Bool :=
  containsBounded urgentPhrases message

/-- `isQuestion` from the source: `/\?\s*$/.test(message)`, i.e. the last
non-whitespace character is a question mark. -/
def isQuestion (message : String) : Bool :=
  match message.toList.reverse.dropWhile jsWs with
  | c :: _ => c = '?'
  | [] => false

/-- A character matched by JS `.` without the dot-all flag (anything but a
line terminator). -/
def dotCh (c : Char) : Bool := !(c = '\n' || c = '\r')

/-- The body of the routine-preference regex
`/\b(what|which)\b.*\b(kind|type|brand|milk|flour|pan|oil|butter|sugar|salt)\b/i`:
a word-bounded `what`/`which` followed, on the same line, by a word-bounded
noun from the fixed set. -/
def routinePrefMatch (s : String) : Bool :=
  let cs := s.toList
  (List.range (cs.length + 1)).any fun i =>
    ["what", "which"].any fun w =>
      boundedMatchAt w.toList cs i &&
        (let e := i + w.length
         (List.range (cs.length + 1)).any fun j =>
           e ≤ j && ((cs.drop e).take (j - e)).all dotCh &&
             ["kind", "type", "brand", "milk", "flour", "pan", "oil",
              "butter", "sugar", "salt"].any fun t => boundedMatchAt t.toList cs j)

/-! ## Completion-confirmation detector (server.ts `userConfirmedCompletion`) -/

def negWords : List String :=
  ["not", "isn" ++ apoS ++ "t", "isnt", "don" ++ apoS ++ "t", "dont"]

def negCompWords : List String := ["done", "finished", "complete", "completed"]

/-- `/\b(not|isn't|isnt|don't|dont)\s+(done|finished|complete|completed)\b/i.test(s)`:
a word-bounded negation word, at least one whitespace character, then a
word-bounded completion word.  The completion word necessarily starts right
after the maximal whitespace run because it starts with a letter. -/
def negCompletionMatch (s : String) : Bool :=
  let cs := s.toList
  (List.range (cs.length + 1)).any fun i =>
    (i = 0 || !wordChAt cs (i - 1)) &&
      negWords.any fun w =>
        matchCIAt w.toList cs i &&
          (let j := i + w.length
           let r := ((cs.drop j).takeWhile jsWs).length
           decide (1 ≤ r) &&
             negCompWords.any fun c2 =>
               matchCIAt c2.toList cs (j + r) && !wordChAt cs (j + r + c2.length))

/-- The affirmative completion alternatives of
`/\b(done|finished|all done|complete|completed|that's it|thats it|we('?| a)re done|it's done|its done)\b/i`
with the inner `we('?| a)re done` group expanded to its three literal forms. -/
def affPhrases : List String :=
  ["done", "finished", "all done", "complete", "completed",
   "that" ++ apoS ++ "s it", "thats it",
   "we" ++ apoS ++ "re done", "were done", "we are done",
   "it" ++ apoS ++ "s done", "its done"]

def completionAskWords : List String :=
  ["done", "finished", "complete", "completed", "wrap up", "stop now"]

def shortAffirmativeWords : List String :=
  ["yes", "yep", "yeah", "correct", "sure", "ok", "okay", "affirmative"]

/-- `/^(yes|yep|yeah|correct|sure|ok|okay|affirmative)[.!]*$/i.test(s)`. -/
def shortAffirmative (s : String) : Bool :=
  let cs := s.toList
  shortAffirmativeWords.any fun w =>
    matchCIAt w.toList cs 0 &&
      (cs.drop w.length).all fun c => c = '.' || c = '!'

/-- `userConfirmedCompletion` from server.ts. -/
def userConfirmedCompletion (message : String) (waitingForAnswer : Bool)
    (lastQuestionText : String) : Bool :=
  let normalized := jsLower (jsTrim message)
  if normalized = "" then false
  else if negCompletionMatch normalized then false
  else if containsBounded affPhrases normalized then true
  else if !waitingForAnswer then false
  else
    let askedAboutCompletion := containsBounded completionAskWords lastQuestionText
    let affirmative := shortAffirmative normalized
    askedAboutCompletion && affirmative

/-! ## Step tokenization (assistant-browser.ts) -/

def STOPWORDS : List String :=
  ["a", "an", "and", "are", "as", "at", "be", "by", "for", "from", "has",
   "have", "in", "into", "is", "it", "of", "on", "or", "that", "the", "then",
   "to", "up", "with", "your", "you"]

def isLowerAlnum (c : Char) : Bool :=
  ('a' ≤ c && c ≤ 'z') || ('0' ≤ c && c ≤ '9')

/-- `text.toLowerCase().split(/[^a-z0-9]+/g).filter(Boolean)`. -/
def rawTokens (s : String) : List String :=
  (splitTok (fun c => !isLowerAlnum c) (jsLower s).toList).map String.mk

/-- `normalizeToken`: drop short tokens, then a simple suffix stem for
`-ing`/`-ed`/`-es`/`-s`. -/
def normalizeToken (token : String) : String :=
  let n := jsTrim token
  if strLen n ≤ 2 then ""
  else if strEndsWith n "ing" && 5 < strLen n then dropRightS n 3
  else if strEndsWith n "ed" && 4 < strLen n then dropRightS n 2
  else if strEndsWith n "es" && 4 < strLen n then dropRightS n 2
  else if strEndsWith n "s" && 3 < strLen n then dropRightS n 1
  else n

/-- `tokenize`: raw alphanumeric tokens, normalized, with stop words and
empty normalizations removed. -/
def tokenize (s : String) : List String :=
  (rawTokens s).filterMap fun t =>
    let n := normalizeToken t
    if n = "" || STOPWORDS.contains n then none else some n

/-- `tokenOverlap`: matched distinct tokens over the smaller distinct-token
count (both sides are JS `Set`s, modelled by deduplicated lists). -/
def tokenOverlap (left right : String) : ℚ :=
  let lt := (tokenize left).dedup
  let rt := (tokenize right).dedup
  if lt.length = 0 || rt.length = 0 then 0
  else mkRat ((lt.filter fun t => rt.contains t).length : Int) (min lt.length rt.length)

/-- `normalizeStepKey`: lower-case, non-alphanumeric characters (other than
whitespace) replaced by spaces, whitespace collapsed, trimmed. -/
def normalizeStepKey (s : String) : String :=
  let mapped := (jsLower s).toList.map fun c =>
    if isLowerAlnum c || jsWs c then c else ' '
  String.mk (joinSp (splitTok jsWs mapped))

/-- `isSameStep`: equal nonempty normalized keys, or token overlap of the
keys at least 0.65. -/
def isSameStep (left right : String) : Bool :=
  let leftKey := normalizeStepKey left
  let rightKey := normalizeStepKey right
  if leftKey = "" || rightKey = "" then false
  else if leftKey = rightKey then true
  else decide (mkRat 65 100 ≤ tokenOverlap leftKey rightKey)

/-- Case-sensitive substring test (JS `hay.includes(needle)`). -/
def strIncludes (hay needle : String) : Bool :=
  let h := hay.toList
  let n := needle.toList
  (List.range (h.length + 1)).any fun i =>
    (List.range n.length).all fun k =>
      match h.get? (i + k), n.get? k with
      | some a, some b => a = b
      | _, _ => false

/-- `messageMatchesCurrentStep` from the source. -/
def messageMatchesCurrentStep (currentStep : Option String) (message : String) : Bool :=
  match currentStep with
  | none => true
  | some cur =>
    if mkRat 1 4 ≤ tokenOverlap cur message then true
    else
      let messageKey := normalizeStepKey message
      let stepKey := normalizeStepKey cur
      if messageKey = "" || stepKey = "" then true
      else strIncludes messageKey stepKey || strIncludes stepKey messageKey

/-! ## Panel step sanitation (assistant-browser.ts `sanitizePanelStep`) -/

/-- Sentence terminators `[.!?]`. -/
def isTermCh (c : Char) : Bool := c = '.' || c = '!' || c = '?'

/-- Whether a string ends with a sentence terminator. -/
def endsWithTerm (s : String) : Bool :=
  match s.toList.getLast? with
  | some c => isTermCh c
  | none => false

/-- Remove the trailing run of sentence terminators
(JS `replace(/[.!?]+$/g, "")`). -/
def stripTrailingTerm (cs : List Char) : List Char :=
  (cs.reverse.dropWhile isTermCh).reverse

/-- Drop a case-insensitive literal prefix, or fail. -/
def dropCIpfx : List Char → List Char → Option (List Char)
  | [], cs => some cs
  | _ :: _, [] => none
  | p :: ps, c :: cs => if c.toLower = p.toLower then dropCIpfx ps cs else none

/-- `replace(/^next\s*step\s*[:\-]\s*/i, "")`. -/
def stripLabelNextStep (cs : List Char) : List Char :=
  match dropCIpfx "next".toList cs with
  | none => cs
  | some r1 =>
    match dropCIpfx "step".toList (r1.dropWhile jsWs) with
    | none => cs
    | some r2 =>
      match r2.dropWhile jsWs with
      | c :: rest => if c = ':' || c = '-' then rest.dropWhile jsWs else cs
      | [] => cs

/-- `replace(/^step\s*\d+\s*[:.)-]?\s*/i, "")`. -/
def stripLabelStepNum (cs : List Char) : List Char :=
  match dropCIpfx "step".toList cs with
  | none => cs
  | some r1 =>
    let r2 := r1.dropWhile jsWs
    let digits := r2.takeWhile Char.isDigit
    if digits = [] then cs
    else
      let r3 := (r2.drop digits.length).dropWhile jsWs
      let r4 :=
        match r3 with
        | c :: rest => if c = ':' || c = '.' || c = ')' || c = '-' then rest else r3
        | [] => r3
      r4.dropWhile jsWs

/-- `replace(/^[-*•]\s+/, "")`. -/
def stripLabelBullet (cs : List Char) : List Char :=
  match cs with
  | c :: rest =>
    if c = '-' || c = '*' || c = '•' then
      if rest.takeWhile jsWs = [] then cs else rest.dropWhile jsWs
    else cs
  | [] => cs

/-- The tail of `sanitizePanelStep` after sentence truncation: ensure a
terminal punctuation mark, then cap at 12 words. -/
def sanitizeStepFinish (s2 : List Char) : String :=
  let s3 := if endsWithTerm (String.mk s2) then s2 else s2 ++ ['.']
  let ws := splitTok jsWs (stripTrailingTerm s3)
  if 12 < ws.length then String.mk (joinSp (ws.take 12) ++ ['.'])
  else String.mk s3

/-- The first non-blank line of the input, `\r` normalized to `\n`, each
line trimmed. -/
def sanitizeFirstLine (input : String) : Option (List Char) :=
  let replaced := input.toList.map fun c => if c = '\r' then '\n' else c
  let lines := (splitTok (fun c => c = '\n') replaced).map trimL
  lines.find? fun l => decide (l ≠ [])

/-- `sanitizePanelStep` after first-line selection: strip leading labels,
truncate at the first sentence terminator, finish. -/
def sanitizeFromLine (firstLine : List Char) : String :=
  let s1 := trimL (stripLabelBullet (stripLabelStepNum (stripLabelNextStep firstLine)))
  if s1 = [] then ""
  else
    let s2 :=
      match s1.dropWhile (fun c => !isTermCh c) with
      | [] => s1
      | t :: _ => trimL (s1.takeWhile (fun c => !isTermCh c) ++ [t])
    sanitizeStepFinish s2

/-- `sanitizePanelStep`: first non-blank line, leading labels stripped,
truncated at the first sentence terminator, terminal punctuation ensured,
capped at 12 words. -/
def sanitizePanelStep (input : String) : String :=
  match sanitizeFirstLine input with
  | none => ""
  | some firstLine => sanitizeFromLine firstLine

def analyzeBroadWords : List String :=
  ["analyse", "analyze", "analysing", "analyzing", "analysed", "analyzed",
   "analysis", "analyzis"]

/-- `^\d+[\).]` (an enumerated-list marker). -/
def startsNumberedList (cs : List Char) : Bool :=
  let digits := cs.takeWhile Char.isDigit
  decide (digits ≠ []) &&
    (match cs.get? digits.length with
     | some c => c = ')' || c = '.'
     | none => false)

/-- `isStepTooBroad` from the source.  The comma count models
`(text.match(/,\s*/g) ?? []).length`, which equals the number of commas. -/
def isStepTooBroad (step : String) : Bool :=
  let text := jsLower step
  let cs := text.toList
  if trimL cs = [] then true
  else if containsBounded analyzeBroadWords text then true
  else if containsBounded ["ingredient", "ingredients"] text then true
  else if containsBounded ["then", "after that", "next"] text then true
  else if 2 ≤ (cs.filter fun c => c = ',').length then true
  else if 2 ≤ countBoundedWord "and" cs then true
  else if startsNumberedList cs then true
  else decide (12 < (splitTok jsWs cs).length)

/-! ## Frame-assessment coercion (assistant-browser.ts `analyzeFrame`)

The JSON text returned by the vision call is parsed by `JSON.parse` (with a
brace-span retry) into a dynamic object.  We model any value reachable from
such a parse — string, finite number, NaN, boolean, null, array, object —
and model the parsed record as an association list of fields, so every
possible parse result of every raw output text is covered. -/

inductive JsVal
  | str (s : String)
  | num (q : ℚ)
  | nan
  | jsBool (b : Bool)
  | jsNull
  | jsArr
  | jsObj
deriving DecidableEq, Repr

abbrev JsRecord := List (String × JsVal)

/-- JS property access `record[key]` (`none` models `undefined`). -/
def getField (p : JsRecord) (key : String) : Option JsVal :=
  (p.find? fun kv => kv.1 = key).map fun kv => kv.2

/-- JS nullish coalescing `a ?? b`. -/
def jsCoalesce : Option JsVal → Option JsVal → Option JsVal
  | none, b => b
  | some .jsNull, b => b
  | some v, _ => some v

inductive StepStatus
  | notStarted
  | inProgress
  | complete
  | unclear
deriving DecidableEq, Repr

def stepStatusStr : StepStatus → String
  | .notStarted => "not_started"
  | .inProgress => "in_progress"
  | .complete => "complete"
  | .unclear => "unclear"

/-- `coerceStepStatus`: only the four exact enum strings pass through. -/
def coerceStepStatus (value : Option JsVal) (fallback : StepStatus) : StepStatus :=
  match value with
  | some (.str s) =>
    if s = "not_started" then .notStarted
    else if s = "in_progress" then .inProgress
    else if s = "complete" then .complete
    else if s = "unclear" then .unclear
    else fallback
  | _ => fallback

/-- Whether a dynamic value is one of the four valid `step_status` strings. -/
def validStatusVal : Option JsVal → Bool
  | some (.str s) =>
    s = "not_started" || s = "in_progress" || s = "complete" || s = "unclear"
  | _ => false

/-- `coerceConfidence`: non-numbers and NaN default to 0.5, numbers are
clamped to [0, 1]. -/
def coerceConfidence (value : Option JsVal) : ℚ :=
  match value with
  | some (.num q) => max 0 (min 1 q)
  | _ => mkRat 1 2

/-- `trimToWordLimit`: collapse whitespace, cap at `maxWords` words, append
an ellipsis when truncated. -/
def trimToWordLimit (text : String) (maxWords : Nat) : String :=
  let ws := splitTok jsWs text.toList
  if ws = [] then ""
  else if ws.length ≤ maxWords then String.mk (joinSp ws)
  else String.mk (joinSp (ws.take maxWords) ++ ['.', '.', '.'])

structure FrameAssessment where
  observation : String
  stepStatus : StepStatus
  confidence : ℚ
  reason : String
deriving DecidableEq, Repr

/-- The field-coercion step of `analyzeFrame`, applied to the parsed record
(`hasLockedStep` is whether `this.currentStep` is set). -/
def mkFrameAssessment (parsed : JsRecord) (hasLockedStep : Bool) : FrameAssessment :=
  let defaultStatus : StepStatus := if hasLockedStep then .unclear else .notStarted
  { observation :=
      trimToWordLimit
        (match getField parsed "observation" with
         | some (.str s) => s
         | _ => "No clear visual change.") 14
    stepStatus :=
      coerceStepStatus
        (jsCoalesce (getField parsed "step_status") (getField parsed "stepStatus"))
        defaultStatus
    confidence := coerceConfidence (getField parsed "confidence")
    reason :=
      trimToWordLimit
        (match getField parsed "reason" with
         | some (.str s) => s
         | _ => "Insufficient visual evidence.") 18 }

structure VisionHistoryEntry where
  takenAtMs : Int
  observation : String
  stepStatus : StepStatus
deriving DecidableEq, Repr

def MAX_VISION_HISTORY : Nat := 10

/-- The history update in `analyzeFrame`: push the new entry, then
`slice(-MAX_VISION_HISTORY)` when over capacity. -/
def ingestVisionHistory (h : List VisionHistoryEntry) (e : VisionHistoryEntry) :
    List VisionHistoryEntry :=
  let h2 := h ++ [e]
  if MAX_VISION_HISTORY < h2.length then h2.drop (h2.length - MAX_VISION_HISTORY)
  else h2

/-! ## Catalog matcher (recipe-store.ts) -/

structure StoredRecipe where
  dish : String
  dishKey : String
  recipe : String
  completedAt : String
  timesCooked : Nat
deriving DecidableEq, Repr

/-- `normalizeDishKey`: lower-case, apostrophes dropped, runs of
non-alphanumerics collapsed to single spaces, trimmed. -/
def normalizeDishKey (s : String) : String :=
  let filtered := (jsLower s).toList.filter fun c => c ≠ apos
  String.mk (joinSp (splitTok (fun c => !isLowerAlnum c) filtered))

def tokenizeDishKey (s : String) : List String :=
  let key := normalizeDishKey s
  if key = "" then []
  else (splitTok jsWs key.toList).map String.mk

/-- `scoreDishMatch` from recipe-store.ts, over exact rationals. -/
def scoreDishMatch (queryKey candidateKey : String) : ℚ :=
  if queryKey = "" || candidateKey = "" then 0
  else if queryKey = candidateKey then 1
  else if strIncludes candidateKey queryKey || strIncludes queryKey candidateKey then
    mkRat 95 100
  else
    let queryTokens := tokenizeDishKey queryKey
    let candidateTokens := tokenizeDishKey candidateKey
    if queryTokens.length = 0 || candidateTokens.length = 0 then 0
    else
      let shared := (queryTokens.filter fun t => candidateTokens.contains t).length
      if shared = 0 then 0
      else
        let overlap : ℚ := mkRat (shared : Int) (min queryTokens.length candidateTokens.length)
        let coverage : ℚ := mkRat (shared : Int) queryTokens.length
        let pfxBonus : ℚ :=
          match queryTokens, candidateTokens with
          | q0 :: _, c0 :: _ => if c0 = q0 && c0 ≠ "" then mkRat 8 100 else 0
          | _, _ => 0
        min 1 (max overlap (coverage * mkRat 9 10) + pfxBonus)

/-- `findBestFuzzyDishMatch`: strict-improvement scan, accept only ≥ 0.62. -/
def findBestFuzzyDishMatch (queryKey : String) (recipes : List StoredRecipe) :
    Option StoredRecipe :=
  let best := recipes.foldl
    (fun (acc : ℚ × Option StoredRecipe) r =>
      let score := scoreDishMatch queryKey r.dishKey
      if acc.1 < score then (score, some r) else acc)
    (0, none)
  if best.1 < mkRat 62 100 then none else best.2

structure RecipeLookupResult where
  found : Bool
  query : String
  matchType : String
  recipe : Option StoredRecipe
deriving DecidableEq, Repr

/-- `lookupByDish` from recipe-store.ts, over an in-memory catalog snapshot
(the on-disk YAML round trip is external persistence). -/
def lookupByDish (catalog : List StoredRecipe) (dishQuery : String) :
    RecipeLookupResult :=
  let query := jsTrim dishQuery
  let queryKey := normalizeDishKey query
  if queryKey = "" then ⟨false, query, "none", none⟩
  else
    match catalog.find? (fun e => e.dishKey = queryKey) with
    | some exact => ⟨true, query, "exact", some exact⟩
    | none =>
      match findBestFuzzyDishMatch queryKey catalog with
      | some fuzzy => ⟨true, query, "fuzzy", some fuzzy⟩
      | none => ⟨false, query, "none", none⟩

/-- `saveCompletedRecipe`, over the in-memory catalog: replace the entry
with the same dish key (bumping `timesCooked`) or append a fresh one, then
keep the catalog sorted by dish name.  `localeLe` models the external
locale-aware comparator `localeCompare(..., "en")`. -/
def saveCompletedRecipe (localeLe : String → String → Bool)
    (catalog : List StoredRecipe) (dish recipe now : String) :
    StoredRecipe × List StoredRecipe :=
  let dishKey := normalizeDishKey dish
  let updated :=
    match catalog.findIdx? (fun e => e.dishKey = dishKey) with
    | some i =>
      match catalog.get? i with
      | some existing =>
        let saved : StoredRecipe :=
          ⟨dish, dishKey, recipe, now, existing.timesCooked + 1⟩
        (saved, catalog.set i saved)
      | none =>
        -- unreachable: `findIdx?` only returns in-range indices
        let saved : StoredRecipe := ⟨dish, dishKey, recipe, now, 1⟩
        (saved, catalog ++ [saved])
    | none =>
      let saved : StoredRecipe := ⟨dish, dishKey, recipe, now, 1⟩
      (saved, catalog ++ [saved])
  (updated.1, updated.2.mergeSort fun a b => localeLe a.dish b.dish)

/-! ## Session state

One record collects the assistant's session fields
(`BrowserCookingAssistant`), the server's speech/session flags and catalog
snapshot (`server.ts` closure state), the `CookingStateStore` fields the
orchestrator writes, and the externally visible effects (panel, overlay,
voiced speech, broadcast errors). -/

structure SpeechState where
  lastSpokenTextKey : String
  lastSpokenAtMs : Int
  waitingForUserAnswer : Bool
  lastQuestionAtMs : Int
  lastQuestionText : String
deriving DecidableEq, Repr

structure SpeechConfig where
  speechRepeatCooldownMs : Int
  questionRepeatCooldownMs : Int
  minQuestionGapMs : Int
deriving DecidableEq, Repr

/-- The server's default cooldowns (120 s / 180 s / 600 s). -/
def defaultSpeechConfig : SpeechConfig := ⟨120000, 180000, 600000⟩

structure Overlay where
  text : String
  urgent : Bool
  ttlSeconds : Option ℚ
deriving DecidableEq, Repr

structure SessionSt where
  currentDish : String
  currentStep : Option String
  pendingNextStep : Option String
  latestFrameAssessment : Option FrameAssessment
  frameAllowsStepAdvance : Bool
  visionHistory : List VisionHistoryEntry
  completedStepKeys : List String
  lastRoutineSpeakAtMs : Int
  speech : SpeechState
  activeDishKey : String
  recipeStoredForSession : Bool
  completionConfirmedForSession : Bool
  catalog : List StoredRecipe
  originalPlan : String
  completedSteps : List String
  observations : List String
  conversation : List (String × String)
  panel : Option (String × String)
  overlay : Option Overlay
  spoken : List String
  broadcastErrors : List String
  timerLog : List String
deriving DecidableEq, Repr

/-- `CookingStateStore.addObservation`: trimmed, empty skipped, capped at
the most recent 30. -/
def addObservationS (st : SessionSt) (o : String) : SessionSt :=
  if jsTrim o = "" then st
  else
    let l := st.observations ++ [jsTrim o]
    { st with observations := if 30 < l.length then l.drop (l.length - 30) else l }

/-- `CookingStateStore.recordConversation`: trimmed, empty skipped, capped
at the most recent 60 entries. -/
def recordConv (st : SessionSt) (role content : String) : SessionSt :=
  if jsTrim content = "" then st
  else
    let l := st.conversation ++ [(role, jsTrim content)]
    { st with conversation := if 60 < l.length then l.drop (l.length - 60) else l }

/-- `CookingStateStore.updatePlan`. -/
def updatePlanS (st : SessionSt) (changes : String) : SessionSt :=
  if jsTrim changes = "" then st
  else if st.originalPlan = "" then { st with originalPlan := jsTrim changes }
  else { st with originalPlan := st.originalPlan ++ "\n\nUpdate: " ++ jsTrim changes }

/-- External collaborators of one tool-dispatch step: the wall clock, the
speech-gate cooldown configuration, the voice-synthesis collaborator's
behaviour, the code-interpreter and timer collaborators, and the locale
comparator used by recipe persistence. -/
structure ExecEnv where
  now : Int
  cfg : SpeechConfig
  requireVoice : Bool
  ttsOk : Bool
  ttsErr : String
  pythonOut : String → String
  cancelResult : String → Bool
  localeLe : String → String → Bool

/-! ## Speech gate -/

/-- The step-scoped speak gate `getBlockedSpeakReason` from
assistant-browser.ts. -/
def getBlockedSpeakReason (st : SessionSt) (now : Int) (message : String) :
    Option String :=
  match st.currentStep with
  | none => none
  | some _ =>
    if st.frameAllowsStepAdvance then none
    else if isUrgentMessage message || isQuestion message then none
    else if !messageMatchesCurrentStep st.currentStep message then
      some "blocked_next_step_until_visual_completion"
    else if now - st.lastRoutineSpeakAtMs < 45000 then
      some "step_waiting_repeat_suppressed"
    else none

/-- `ROUTINE_SPEAK_MIN_GAP_MS` (45 s) used above. -/
def ROUTINE_SPEAK_MIN_GAP_MS : Int := 45000

/-- `text.replace(/\s+/g, " ").trim().toLowerCase()`. -/
def collapseWsKey (s : String) : String :=
  jsLower (String.mk (joinSp (splitTok jsWs s.toList)))

/-- The outcome of the server's `outputs.speak` (which suppression branch
fired, or actual voicing, or a voice-synthesis failure downgraded to an
error broadcast). -/
inductive SpeakOutcome
  | skippedEmpty
  | suppressedDuplicate
  | suppressedAwaitingAnswer
  | suppressedQuestionRepeat
  | suppressedRoutinePref
  | suppressedQuestionGap
  | voiced (text : String)
  | voiceFailed (err : String)
deriving DecidableEq, Repr

/-- The server-side speech gate `outputs.speak` from server.ts, as a pure
function of the speech state, clock and candidate text.  An exceptional
result models the re-thrown voice failure under `requireVoice`. -/
def outputsSpeak (env : ExecEnv) (sp : SpeechState) (message : String) :
    Except String (SpeakOutcome × SpeechState) :=
  let text := jsTrim message
  if text = "" then .ok (.skippedEmpty, sp)
  else
    let now := env.now
    let textKey := collapseWsKey text
    let isQ := isQuestion text
    let isUrgent := isUrgentMessage text
    if textKey = sp.lastSpokenTextKey ∧
        now - sp.lastSpokenAtMs < env.cfg.speechRepeatCooldownMs then
      .ok (.suppressedDuplicate, sp)
    else if sp.waitingForUserAnswer = true ∧ isUrgent = false then
      .ok (.suppressedAwaitingAnswer, sp)
    else if isQ = true ∧ sp.waitingForUserAnswer = true ∧
        now - sp.lastQuestionAtMs < env.cfg.questionRepeatCooldownMs then
      .ok (.suppressedQuestionRepeat, sp)
    else if isQ = true ∧ routinePrefMatch text = true then
      .ok (.suppressedRoutinePref, sp)
    else if isQ = true ∧ isUrgent = false ∧
        now - sp.lastQuestionAtMs < env.cfg.minQuestionGapMs then
      .ok (.suppressedQuestionGap, sp)
    else if env.ttsOk then
      .ok (.voiced text,
        { lastSpokenTextKey := textKey
          lastSpokenAtMs := now
          waitingForUserAnswer := if isQ then true else sp.waitingForUserAnswer
          lastQuestionAtMs := if isQ then now else sp.lastQuestionAtMs
          lastQuestionText := if isQ then text else sp.lastQuestionText })
    else if env.requireVoice then
      .error ("Voice output failed: " ++ env.ttsErr)
    else
      .ok (.voiceFailed ("Voice output failed: " ++ env.ttsErr), sp)

/-! ## Step-lock state machine (assistant-browser.ts `applyPanelStepGate`) -/

/-- `markCurrentStepCompleted`: record the locked step as completed at most
once, keyed by its normalized step key. -/
def markCurrentStepCompleted (st : SessionSt) : SessionSt :=
  match st.currentStep with
  | none => st
  | some cur =>
    let key := normalizeStepKey cur
    if key = "" || st.completedStepKeys.contains key then st
    else
      { st with
        completedStepKeys := st.completedStepKeys ++ [key]
        completedSteps := st.completedSteps ++ [cur] }

/-- The structured result of a `set_panel` call. -/
inductive PanelResult
  | emptyStep
  | tooBroad
  | lockedStep (stepLocked : String) (advanced : Bool)
  | blocked (currentStep requestedNextStep frameStatus : String)
  | advancedTo (currentStep : String)
deriving DecidableEq, Repr

/-- The `frame_status` field surfaced by a blocked `set_panel` result. -/
def frameStatusStr (st : SessionSt) : String :=
  match st.latestFrameAssessment with
  | some a => stepStatusStr a.stepStatus
  | none => "unknown"

/-- `applyPanelStepGate` from assistant-browser.ts: the `proposeStep`
operation of the step-lock state machine. -/
def applyPanelStepGate (st : SessionSt) (cooking requestedStep : String) :
    PanelResult × SessionSt :=
  let nextStep := sanitizePanelStep requestedStep
  if nextStep = "" then (.emptyStep, st)
  else if isStepTooBroad nextStep then
    (.tooBroad, addObservationS st ("step_rejected: \"" ++ requestedStep ++ "\""))
  else
    let st1 :=
      { st with currentDish := if jsTrim cooking = "" then st.currentDish else jsTrim cooking }
    match st1.currentStep with
    | none =>
      (.lockedStep nextStep false,
        { st1 with
          currentStep := some nextStep
          pendingNextStep := none
          panel := some (cooking, nextStep) })
    | some cur =>
      if isSameStep cur nextStep then
        (.lockedStep nextStep false,
          { st1 with
            currentStep := some nextStep
            pendingNextStep := none
            panel := some (cooking, nextStep) })
      else
        let st2 := { st1 with pendingNextStep := some nextStep }
        if !st2.frameAllowsStepAdvance then
          (.blocked cur nextStep (frameStatusStr st2),
            addObservationS st2
              ("step_gate_blocked: waiting to finish \"" ++ cur ++ "\" before \"" ++
                nextStep ++ "\"."))
        else
          let st3 := markCurrentStepCompleted st2
          (.advancedTo nextStep,
            { st3 with
              currentStep := some nextStep
              pendingNextStep := none
              panel := some (cooking, nextStep) })

/-! ## Recipe persistence preconditions (server.ts `completeRecipe`) -/

structure CompleteResult where
  ok : Bool
  saved : Bool
  error : Option String
  reason : Option String
  recipe : Option StoredRecipe
deriving DecidableEq, Repr

/-- `completeRecipe` from server.ts, over the session flags and the
in-memory catalog snapshot. -/
def completeRecipe (env : ExecEnv) (st : SessionSt) (dishRaw recipeRaw : String) :
    CompleteResult × SessionSt :=
  let dish := jsTrim dishRaw
  let recipe := jsTrim recipeRaw
  if dish = "" || recipe = "" then
    (⟨false, false, some "Both dish and recipe are required.", none, none⟩, st)
  else
    let dishKey := normalizeDishKey dish
    if dishKey = "" then
      (⟨false, false, some "Could not normalize dish name.", none, none⟩, st)
    else if st.activeDishKey = "" then
      (⟨false, false, some "No active cooking session.", none, none⟩, st)
    else if dishKey ≠ st.activeDishKey then
      (⟨false, false,
        some ("Dish \"" ++ dish ++ "\" does not match active session dish."),
        none, none⟩, st)
    else if st.recipeStoredForSession then
      (⟨true, false, none, some "already_saved_for_session", none⟩, st)
    else if !st.completionConfirmedForSession then
      (⟨false, false,
        some "Recipe can only be saved after user confirms the dish is finished.",
        none, none⟩, st)
    else
      let saveRes := saveCompletedRecipe env.localeLe st.catalog dish recipe "now"
      let st2 :=
        { st with
          catalog := saveRes.2
          recipeStoredForSession := true
          completionConfirmedForSession := false }
      let st3 := addObservationS st2
        ("Saved completed recipe \"" ++ saveRes.1.dish ++ "\".")
      (⟨true, true, none, none, some saveRes.1⟩, st3)

/-! ## Tool-call dispatch (assistant-browser.ts `executeFunctionCall`) -/

/-- One function call requested by the model.  `args` is the record
produced by `tryParseArguments` (which yields `{}` for unparseable raw
argument text, so quantifying over records covers every raw string). -/
structure FnCall where
  name : String
  callId : String
  args : JsRecord
deriving DecidableEq, Repr

/-- `readStringArg`: a present, non-blank string argument, trimmed;
otherwise a thrown `Missing string argument` error. -/
def readStringArg (args : JsRecord) (key : String) : Except String String :=
  match getField args key with
  | some (.str s) =>
    if jsTrim s = "" then .error ("Missing string argument: " ++ key)
    else .ok (jsTrim s)
  | _ => .error ("Missing string argument: " ++ key)

/-- `readNumberArg` (NaN rejected like a missing value). -/
def readNumberArg (args : JsRecord) (key : String) : Except String ℚ :=
  match getField args key with
  | some (.num q) => .ok q
  | _ => .error ("Missing numeric argument: " ++ key)

/-- `readOptionalNumberArg`. -/
def readOptionalNumberArg (args : JsRecord) (key : String) :
    Except String (Option ℚ) :=
  match getField args key with
  | none => .ok none
  | some .jsNull => .ok none
  | some (.num q) => .ok (some q)
  | some _ => .error ("Invalid numeric argument: " ++ key)

/-- `readPriorityArg`: `true` means urgent. -/
def readPriorityArg (args : JsRecord) (key : String) : Except String Bool :=
  match getField args key with
  | some (.str s) =>
    if s = "normal" then .ok false
    else if s = "urgent" then .ok true
    else .error ("Invalid priority argument: " ++ key)
  | _ => .error ("Invalid priority argument: " ++ key)

/-- Structured tool results (their JSON serialization back to the model is
presentation and not modelled). -/
inductive ToolResult
  | plainOk
  | speakSuppressed (reason : String)
  | silent
  | timerSet (label : String)
  | timerCancelled (ok : Bool)
  | lookupOut (r : RecipeLookupResult)
  | panelOut (r : PanelResult)
  | completeOut (r : CompleteResult)
  | pythonRes (s : String)
  | unknownTool (name : String)
deriving DecidableEq, Repr

/-- The dispatch switch of `executeFunctionCall`.  Every branch performs
its argument reads (which may throw) before any state mutation, exactly as
in the source, so a thrown error leaves the state unchanged. -/
def runTool (env : ExecEnv) (call : FnCall) (st : SessionSt) :
    Except String (ToolResult × SessionSt) :=
  if call.name = "speak" then do
    let message ← readStringArg call.args "message"
    match getBlockedSpeakReason st env.now message with
    | some reason => pure (.speakSuppressed reason, st)
    | none =>
      match outputsSpeak env st.speech message with
      | .error e => .error e
      | .ok (outcome, sp2) =>
        let st2 :=
          { st with
            speech := sp2
            spoken :=
              match outcome with
              | .voiced t => st.spoken ++ [t]
              | _ => st.spoken
            broadcastErrors :=
              match outcome with
              | .voiceFailed m => st.broadcastErrors ++ [m]
              | _ => st.broadcastErrors }
        let st3 := recordConv st2 "assistant" message
        let st4 :=
          if !isQuestion message && !isUrgentMessage message then
            { st3 with lastRoutineSpeakAtMs := env.now }
          else st3
        pure (.plainOk, st4)
  else if call.name = "stay_silent" then do
    let reason ← readStringArg call.args "reason"
    pure (.silent, addObservationS st ("stay_silent: " ++ reason))
  else if call.name = "set_timer" then do
    let _ ← readNumberArg call.args "duration_seconds"
    let label ← readStringArg call.args "label"
    pure (.timerSet label, { st with timerLog := st.timerLog ++ [label] })
  else if call.name = "cancel_timer" then do
    let label ← readStringArg call.args "label"
    pure (.timerCancelled (env.cancelResult label), st)
  else if call.name = "update_plan" then do
    let changes ← readStringArg call.args "changes"
    pure (.plainOk, updatePlanS st changes)
  else if call.name = "update_state" then do
    let observation ← readStringArg call.args "observation"
    pure (.plainOk, addObservationS st observation)
  else if call.name = "lookup_recipe" then do
    let dish ← readStringArg call.args "dish"
    let r := lookupByDish st.catalog dish
    let resolvedDish := (r.recipe.map fun e => e.dish).getD dish
    let st2 := addObservationS st
      (if r.found then
        "recipe_lookup: \"" ++ dish ++ "\" -> \"" ++ resolvedDish ++ "\" (" ++
          r.matchType ++ ")"
      else "recipe_lookup: no match for \"" ++ dish ++ "\"")
    pure (.lookupOut r, st2)
  else if call.name = "set_overlay" then do
    let text ← readStringArg call.args "text"
    let urgent ← readPriorityArg call.args "priority"
    let ttl ← readOptionalNumberArg call.args "ttl_seconds"
    pure (.plainOk, { st with overlay := some ⟨text, urgent, ttl⟩ })
  else if call.name = "set_panel" then do
    let cooking ← readStringArg call.args "cooking"
    let nextStep ← readStringArg call.args "next_step"
    let r := applyPanelStepGate st cooking nextStep
    pure (.panelOut r.1, r.2)
  else if call.name = "clear_panel" then
    pure (.plainOk,
      { st with panel := none, currentStep := none, pendingNextStep := none })
  else if call.name = "clear_overlay" then
    pure (.plainOk, { st with overlay := none })
  else if call.name = "complete_recipe" then do
    let dish ← readStringArg call.args "dish"
    let recipe ← readStringArg call.args "recipe"
    let r := completeRecipe env st dish recipe
    pure (.completeOut r.1, r.2)
  else if call.name = "run_python" then do
    let code ← readStringArg call.args "code"
    pure (.pythonRes (env.pythonOut code), st)
  else
    pure (.unknownTool call.name, st)

/-- `executeFunctionCall`: run the dispatch switch, then log the tool
round trip in the conversation (the serialized result text is
presentation; only the tool name is kept).  A thrown error propagates with
the pre-call state, as in the source. -/
def execCall (env : ExecEnv) (call : FnCall) (st : SessionSt) :
    Except String ToolResult × SessionSt :=
  match runTool env call st with
  | .ok (r, st2) => (.ok r, recordConv st2 "tool" call.name)
  | .error e => (.error e, st)

/-! ## Tool-call resolution loop (assistant-browser.ts `resolveResponse`) -/

/-- One model turn: its requested function calls and its free text. -/
structure ModelResponse where
  functionCalls : List FnCall
  outputText : String

/-- Execute one round's function calls in order, stopping at the first
thrown error (which in the source unwinds out of `resolveResponse`). -/
def runCalls (env : ExecEnv) : List FnCall → SessionSt → Option String × SessionSt
  | [], st => (none, st)
  | c :: cs, st =>
    match execCall env c st with
    | (.ok _, st2) => runCalls env cs st2
    | (.error e, st2) => (some e, st2)

inductive LoopOutcome
  | finished (note : Option String)
  | exceeded
  | errored (e : String)
deriving DecidableEq, Repr

/-- The quiet-round epilogue: non-empty free text is recorded in the
conversation and as an `assistant_note` observation, never voiced. -/
def recordAssistantNote (st : SessionSt) (rawText : String) : SessionSt :=
  let text := jsTrim rawText
  if text = "" then st
  else addObservationS (recordConv st "assistant" text) ("assistant_note: " ++ text)

/-- The body of `resolveResponse`: at most `fuel` rounds starting at round
index `i`; `responses i` is the model turn inspected in round `i` (the
model itself is an oracle).  `LoopOutcome.exceeded` models the thrown
`Tool-call loop exceeded safety depth.` error. -/
def resolveAux (env : ExecEnv) (responses : Nat → ModelResponse) :
    Nat → Nat → SessionSt → LoopOutcome × SessionSt
  | 0, _, st => (.exceeded, st)
  | fuel + 1, i, st =>
    let r := responses i
    match r.functionCalls with
    | [] =>
      let text := jsTrim r.outputText
      ((.finished (if text = "" then none else some text)), recordAssistantNote st r.outputText)
    | _ :: _ =>
      match runCalls env r.functionCalls st with
      | (some e, st2) => (.errored e, st2)
      | (none, st2) => resolveAux env responses fuel (i + 1) st2

/-- `resolveResponse`: the 8-round bounded loop. -/
def resolveResponse (env : ExecEnv) (responses : Nat → ModelResponse)
    (st : SessionSt) : LoopOutcome × SessionSt :=
  resolveAux env responses 8 0 st

/-- The session state after the first `k` rounds' tool executions. -/
def loopState (env : ExecEnv) (responses : Nat → ModelResponse) (st : SessionSt) :
    Nat → SessionSt
  | 0 => st
  | k + 1 =>
    (runCalls env (responses k).functionCalls (loopState env responses st k)).2

/-- The freshly reset session state (`resetSession` plus empty store,
catalog and effects). -/
def initialSessionSt : SessionSt :=
  { currentDish := ""
    currentStep := none
    pendingNextStep := none
    latestFrameAssessment := none
    frameAllowsStepAdvance := true
    visionHistory := []
    completedStepKeys := []
    lastRoutineSpeakAtMs := 0
    speech :=
      { lastSpokenTextKey := ""
        lastSpokenAtMs := 0
        waitingForUserAnswer := false
        lastQuestionAtMs := 0
        lastQuestionText := "" }
    activeDishKey := ""
    recipeStoredForSession := false
    completionConfirmedForSession := false
    catalog := []
    originalPlan := ""
    completedSteps := []
    observations := []
    conversation := []
    panel := none
    overlay := none
    spoken := []
    broadcastErrors := []
    timerLog := [] }

/-- The `/api/user-message` flag update in server.ts: an affirmative
completion sets the session completion flag; the pending-question state is
always cleared.  An empty (trimmed) message is rejected by the route
before any flag changes. -/
def handleUserMessageFlags (st : SessionSt) (message : String) : SessionSt :=
  if jsTrim message = "" then st
  else
    let confirmed :=
      userConfirmedCompletion message st.speech.waitingForUserAnswer
        st.speech.lastQuestionText
    { st with
      completionConfirmedForSession :=
        if confirmed then true else st.completionConfirmedForSession
      speech :=
        { st.speech with waitingForUserAnswer := false, lastQuestionText := "" } }

/-! ## Helper lemmas about the tokenizer -/

theorem splitTokAux_tokens (p : Char → Bool) :
    ∀ (cs acc : List Char), (∀ c ∈ acc, p c = false) →
      ∀ t ∈ splitTokAux p cs acc, t ≠ [] ∧ ∀ c ∈ t, p c = false := by
  intro cs
  induction cs with
  | nil =>
    intro acc hacc t ht
    by_cases h : acc = []
    · simp [splitTokAux, h] at ht
    · simp only [splitTokAux, if_neg h, List.mem_singleton] at ht
      subst ht
      refine ⟨by simpa using h, ?_⟩
      intro c hc
      exact hacc c (List.mem_reverse.mp hc)
  | cons c cs ih =>
    intro acc hacc t ht
    by_cases hpc : p c
    · by_cases h : acc = []
      · simp only [splitTokAux, if_pos hpc, if_pos h] at ht
        exact ih [] (by simp) t ht
      · simp only [splitTokAux, if_pos hpc, if_neg h, List.mem_cons] at ht
        rcases ht with rfl | ht
        · refine ⟨by simpa using h, ?_⟩
          intro d hd
          exact hacc d (List.mem_reverse.mp hd)
        · exact ih [] (by simp) t ht
    · simp only [splitTokAux, if_neg hpc] at ht
      refine ih (c :: acc) ?_ t ht
      intro d hd
      rcases List.mem_cons.mp hd with rfl | hd
      · simpa using hpc
      · exact hacc d hd

theorem splitTok_tokens (p : Char → Bool) (cs : List Char) :
    ∀ t ∈ splitTok p cs, t ≠ [] ∧ ∀ c ∈ t, p c = false :=
  splitTokAux_tokens p cs [] (by simp)

theorem splitTokAux_mem_chars (p : Char → Bool) :
    ∀ (cs acc : List Char), ∀ t ∈ splitTokAux p cs acc, ∀ c ∈ t, c ∈ cs ∨ c ∈ acc := by
  intro cs
  induction cs with
  | nil =>
    intro acc t ht c hc
    by_cases h : acc = []
    · simp [splitTokAux, h] at ht
    · simp only [splitTokAux, if_neg h, List.mem_singleton] at ht
      subst ht
      exact Or.inr (List.mem_reverse.mp hc)
  | cons a cs ih =>
    intro acc t ht c hc
    by_cases hpa : p a
    · by_cases h : acc = []
      · simp only [splitTokAux, if_pos hpa, if_pos h] at ht
        rcases ih [] t ht c hc with h1 | h1
        · exact Or.inl (List.mem_cons_of_mem a h1)
        · simp at h1
      · simp only [splitTokAux, if_pos hpa, if_neg h, List.mem_cons] at ht
        rcases ht with rfl | ht
        · exact Or.inr (List.mem_reverse.mp hc)
        · rcases ih [] t ht c hc with h1 | h1
          · exact Or.inl (List.mem_cons_of_mem a h1)
          · simp at h1
    · simp only [splitTokAux, if_neg hpa] at ht
      rcases ih (a :: acc) t ht c hc with h1 | h1
      · exact Or.inl (List.mem_cons_of_mem a h1)
      · rcases List.mem_cons.mp h1 with rfl | h1
        · exact Or.inl (by simp)
        · exact Or.inr h1

theorem splitTok_mem_chars (p : Char → Bool) (cs : List Char) :
    ∀ t ∈ splitTok p cs, ∀ c ∈ t, c ∈ cs := by
  intro t ht c hc
  rcases splitTokAux_mem_chars p cs [] t ht c hc with h | h
  · exact h
  · simp at h

theorem splitTokAux_nonsep_run (p : Char → Bool) :
    ∀ (t cs acc : List Char), (∀ c ∈ t, p c = false) →
      splitTokAux p (t ++ cs) acc = splitTokAux p cs (t.reverse ++ acc) := by
  intro t
  induction t with
  | nil => intro cs acc _; simp
  | cons c t ih =>
    intro cs acc ht
    have hpc : p c = false := ht c (List.mem_cons_self c t)
    simp only [List.cons_append, splitTokAux,
      if_neg (show ¬ p c = true by simp [hpc]), List.append_eq]
    rw [ih cs (c :: acc) (fun d hd => ht d (List.mem_cons_of_mem c hd))]
    simp

theorem splitTokAux_sep_head (p : Char → Bool) (c : Char) (cs acc : List Char)
    (hpc : p c = true) :
    splitTokAux p (c :: cs) acc =
      (if acc = [] then [] else [acc.reverse]) ++ splitTokAux p cs [] := by
  by_cases h : acc = [] <;> simp [splitTokAux, hpc, h]

/-- Splitting on whitespace of a space-joined token list recovers the
tokens, provided they are nonempty and whitespace-free. -/
theorem splitTok_joinSp (ts : List (List Char))
    (h : ∀ t ∈ ts, t ≠ [] ∧ ∀ c ∈ t, jsWs c = false) :
    splitTok jsWs (joinSp ts) = ts := by
  induction ts with
  | nil => rfl
  | cons t ts ih =>
    match ts, ih with
    | [], _ =>
      have ht := h t (List.mem_cons_self t [])
      have h2 := splitTokAux_nonsep_run jsWs t [] [] ht.2
      simp only [List.append_nil] at h2
      show splitTokAux jsWs t [] = [t]
      rw [h2]
      simp [splitTokAux, ht.1]
    | t2 :: ts2, ih =>
      have ht := h t (List.mem_cons_self t _)
      show splitTokAux jsWs (t ++ ' ' :: joinSp (t2 :: ts2)) [] = t :: t2 :: ts2
      rw [splitTokAux_nonsep_run jsWs t _ [] ht.2]
      rw [splitTokAux_sep_head jsWs ' ' _ _ (by simp [jsWs])]
      have h3 : splitTok jsWs (joinSp (t2 :: ts2)) = t2 :: ts2 :=
        ih (fun u hu => h u (List.mem_cons_of_mem t hu))
      simp only [splitTok] at h3 ⊢
      simp [ht.1, h3]

theorem joinSp_concat_ext (ts : List (List Char)) (l ext : List Char) :
    joinSp (ts ++ [l]) ++ ext = joinSp (ts ++ [l ++ ext]) := by
  induction ts with
  | nil => simp [joinSp]
  | cons t ts ih =>
    match ts, ih with
    | [], _ => simp [joinSp]
    | t2 :: ts2, ih =>
      simp only [List.cons_append, joinSp, List.append_assoc, List.append_eq] at ih ⊢
      rw [ih]

theorem joinSp_chars (ts : List (List Char)) :
    ∀ c ∈ joinSp ts, c = ' ' ∨ ∃ t ∈ ts, c ∈ t := by
  induction ts with
  | nil => simp [joinSp]
  | cons t ts ih =>
    match ts, ih with
    | [], _ =>
      intro c hc
      exact Or.inr ⟨t, by simp, hc⟩
    | t2 :: ts2, ih =>
      intro c hc
      simp only [joinSp, List.mem_append, List.mem_cons] at hc
      rcases hc with hc | hc | hc
      · exact Or.inr ⟨t, by simp, hc⟩
      · exact Or.inl hc
      · rcases ih c hc with h | ⟨u, hu, hcu⟩
        · exact Or.inl h
        · exact Or.inr ⟨u, List.mem_cons_of_mem t hu, hcu⟩

/-- Word count of a space-joined token list with a whitespace-free suffix
appended to its last token. -/
theorem splitTok_joinSp_ext (ts : List (List Char)) (ext : List Char)
    (h : ∀ t ∈ ts, t ≠ [] ∧ ∀ c ∈ t, jsWs c = false)
    (hext : ∀ c ∈ ext, jsWs c = false) (hne : ts ≠ []) :
    (splitTok jsWs (joinSp ts ++ ext)).length = ts.length := by
  rcases List.eq_nil_or_concat ts with rfl | ⟨ts', a, rfl⟩
  · exact absurd rfl hne
  · simp only [List.concat_eq_append] at h ⊢
    rw [joinSp_concat_ext]
    have hconds : ∀ t ∈ ts' ++ [a ++ ext], t ≠ [] ∧ ∀ c ∈ t, jsWs c = false := by
      intro t ht
      rcases List.mem_append.mp ht with ht | ht
      · exact h t (List.mem_append.mpr (Or.inl ht))
      · rw [List.mem_singleton] at ht
        subst ht
        have ha := h a (List.mem_append.mpr (Or.inr (List.mem_singleton.mpr rfl)))
        refine ⟨by simp [ha.1], ?_⟩
        intro c hc
        rcases List.mem_append.mp hc with hc | hc
        · exact ha.2 c hc
        · exact hext c hc
    rw [splitTok_joinSp _ hconds]
    simp

/-- A list whose head (if any) fails `p` is untouched by `dropWhile`. -/
theorem dropWhile_eq_self_of (p : Char → Bool) (l : List Char)
    (h : ∀ c ∈ l, p c = false) : l.dropWhile p = l := by
  cases l with
  | nil => rfl
  | cons c cs => simp [List.dropWhile, h c (by simp)]

theorem dropWhile_head_not (p : Char → Bool) :
    ∀ (l : List Char) (a : Char) (r : List Char), l.dropWhile p = a :: r → p a = false := by
  intro l
  induction l with
  | nil => intro a r h; simp [List.dropWhile] at h
  | cons c cs ih =>
    intro a r h
    by_cases hpc : p c
    · simp only [List.dropWhile, hpc] at h
      exact ih a r h
    · simp only [List.dropWhile, Bool.not_eq_true] at hpc
      simp [List.dropWhile, hpc] at h
      rcases h with ⟨rfl, _⟩
      simpa using hpc

theorem dropWhile_append_split (p : Char → Bool) :
    ∀ (xs ys : List Char),
      (xs ++ ys).dropWhile p =
        if xs.dropWhile p = [] then ys.dropWhile p else xs.dropWhile p ++ ys := by
  intro xs
  induction xs with
  | nil => intro ys; simp
  | cons c cs ih =>
    intro ys
    by_cases hpc : p c
    · simpa [List.dropWhile, hpc] using ih ys
    · simp [List.dropWhile, hpc]

/-- Sentence terminators are not whitespace. -/
theorem term_not_ws (c : Char) (h : isTermCh c = true) : jsWs c = false := by
  rcases (by simpa [isTermCh] using h : (c = '.' ∨ c = '!') ∨ c = '?') with (rfl | rfl) | rfl
  all_goals rfl

/-- Stripping the trailing terminator run from a terminator-free body with
one terminator appended recovers the body. -/
theorem stripTrailingTerm_concat (body : List Char) (t : Char)
    (hb : ∀ c ∈ body, isTermCh c = false) (ht : isTermCh t = true) :
    stripTrailingTerm (body ++ [t]) = body := by
  unfold stripTrailingTerm
  rw [List.reverse_append]
  simp only [List.reverse_singleton, List.singleton_append, List.dropWhile, ht,
    List.append_eq, List.nil_append]
  rw [dropWhile_eq_self_of isTermCh body.reverse
    (fun c hc => hb c (List.mem_reverse.mp hc))]
  simp

/-- Trimming a list ending in a non-whitespace character only trims on the
left. -/
theorem trimL_concat_nonws (pre : List Char) (t : Char) (ht : jsWs t = false) :
    trimL (pre ++ [t]) = pre.dropWhile jsWs ++ [t] := by
  unfold trimL
  rw [dropWhile_append_split]
  by_cases h : pre.dropWhile jsWs = []
  · simp only [h, if_pos rfl]
    simp [List.dropWhile, ht]
  · simp only [if_neg h]
    rw [List.reverse_append]
    simp only [List.reverse_singleton, List.singleton_append, List.dropWhile, ht]
    simp

/-! ## Claim C10 — negated completion phrases never confirm completion -/

/-- C10: a user message containing a negated completion phrase (`not`,
`isn't`, `isnt`, `don't` or `dont` followed by whitespace and `done`,
`finished`, `complete` or `completed`, word-bounded, over the trimmed
lower-cased message) makes the affirmative-completion detector return
`false`, so the `/api/user-message` route leaves the session
completion-confirmed flag unchanged — regardless of any other affirmative
wording in the message and regardless of the pending-question state. -/
theorem c10_negated_completion_never_confirms (message : String) (st : SessionSt)
    (h : negCompletionMatch (jsLower (jsTrim message)) = true) :
    userConfirmedCompletion message st.speech.waitingForUserAnswer
        st.speech.lastQuestionText = false ∧
      (handleUserMessageFlags st message).completionConfirmedForSession =
        st.completionConfirmedForSession := by
  have huc : ∀ (w : Bool) (q : String), userConfirmedCompletion message w q = false := by
    intro w q
    unfold userConfirmedCompletion
    by_cases h0 : jsLower (jsTrim message) = ""
    · simp [h0]
    · simp [h0, h]
  refine ⟨huc _ _, ?_⟩
  unfold handleUserMessageFlags
  by_cases hm : jsTrim message = ""
  · simp [hm]
  · simp [hm, huc]

/-- A session state with a pending completion question, used by the C10
witness. -/
def c10WitnessSt : SessionSt :=
  { initialSessionSt with
    speech :=
      { initialSessionSt.speech with
        waitingForUserAnswer := true
        lastQuestionText := "Is the dish done?" } }

/-- C10 witness: a message with a negated completion phrase and an
affirmative phrase, while a completion question is pending. -/
theorem c10_negated_completion_witness :
    negCompletionMatch
        (jsLower (jsTrim " It is NOT done yet, but we are done with prep ")) = true ∧
      userConfirmedCompletion " It is NOT done yet, but we are done with prep "
        c10WitnessSt.speech.waitingForUserAnswer
        c10WitnessSt.speech.lastQuestionText = false :=
  ⟨by decide,
    (c10_negated_completion_never_confirms _ c10WitnessSt (by decide)).1⟩

/-! ## Claim C7 — bounded FIFO vision history -/

/-- C7: the vision history never exceeds 10 entries; ingestion appends the
new entry at the end and evicts exactly the oldest entries past capacity;
after 11 ingestions from empty the first entry is gone and the 11th is
last. -/
theorem c7_vision_history_fifo :
    (∀ (h : List VisionHistoryEntry) (e : VisionHistoryEntry), h.length ≤ 10 →
      (ingestVisionHistory h e).length ≤ 10 ∧
        (ingestVisionHistory h e).getLast? = some e ∧
        ingestVisionHistory h e = (h ++ [e]).drop (h.length + 1 - 10)) ∧
    (∀ es : Nat → VisionHistoryEntry,
      ((List.range 11).map es).foldl ingestVisionHistory [] =
        [es 1, es 2, es 3, es 4, es 5, es 6, es 7, es 8, es 9, es 10]) := by
  constructor
  · intro h e hlen
    unfold ingestVisionHistory MAX_VISION_HISTORY
    by_cases hcase : 10 < (h ++ [e]).length
    · have h10 : h.length = 10 := by
        simp only [List.length_append, List.length_singleton] at hcase
        omega
      have hne : h ≠ [] := by
        intro hnil
        rw [hnil] at h10
        simp at h10
      obtain ⟨hd, tl, rfl⟩ := List.exists_cons_of_ne_nil hne
      have htl : tl.length = 9 := by
        simp only [List.length_cons] at h10
        omega
      refine ⟨?_, ?_, ?_⟩
      · simp [hcase, htl]
      · simp only [if_pos hcase]
        have : (hd :: tl ++ [e]).length - 10 = 1 := by simp [htl]
        rw [this]
        simp [List.getLast?_concat]
      · simp only [if_pos hcase]
        congr 1
        simp [htl]
    · have hle : (h ++ [e]).length ≤ 10 := by omega
      have hz : h.length + 1 - 10 = 0 := by
        simp only [List.length_append, List.length_singleton] at hle
        omega
      refine ⟨?_, ?_, ?_⟩
      · rw [if_neg hcase]
        exact hle
      · rw [if_neg hcase]
        simp [List.getLast?_concat]
      · rw [if_neg hcase, hz]
        simp
  · intro es
    simp only [show List.range 11 = [0, 1, 2, 3, 4, 5, 6, 7, 8, 9, 10] from rfl,
      List.map_cons, List.map_nil, List.foldl_cons, List.foldl_nil]
    simp [ingestVisionHistory, MAX_VISION_HISTORY]

/-- C7 witness: the capacity bound at a concrete history and entry, and the
11-ingestion FIFO behaviour at a concrete entry family. -/
theorem c7_vision_history_witness :
    (ingestVisionHistory [⟨0, "a", StepStatus.unclear⟩]
          ⟨1, "b", StepStatus.complete⟩).getLast? =
        some ⟨1, "b", StepStatus.complete⟩ ∧
      ((List.range 11).map fun i =>
          (⟨(i : Int), "", StepStatus.unclear⟩ : VisionHistoryEntry)).foldl
          ingestVisionHistory [] =
        [⟨1, "", StepStatus.unclear⟩, ⟨2, "", StepStatus.unclear⟩,
         ⟨3, "", StepStatus.unclear⟩, ⟨4, "", StepStatus.unclear⟩,
         ⟨5, "", StepStatus.unclear⟩, ⟨6, "", StepStatus.unclear⟩,
         ⟨7, "", StepStatus.unclear⟩, ⟨8, "", StepStatus.unclear⟩,
         ⟨9, "", StepStatus.unclear⟩, ⟨10, "", StepStatus.unclear⟩] :=
  ⟨(c7_vision_history_fifo.1 [⟨0, "a", StepStatus.unclear⟩]
      ⟨1, "b", StepStatus.complete⟩ (by decide)).2.1,
    c7_vision_history_fifo.2 fun i => ⟨(i : Int), "", StepStatus.unclear⟩⟩

/-! ## Claim C1 — urgency and the speech gate

The source has a genuine urgency override in the awaiting-answer branch,
the minimum-question-gap branch and the step-scoped gate, but the
duplicate-speech cooldown, the question-repeat cooldown and the
routine-preference filter fire without consulting urgency, so an urgent
candidate can still be suppressed. -/

/-- A default-configuration collaborator environment (voice synthesis
succeeds). -/
def defaultEnv : ExecEnv :=
  { now := 0
    cfg := defaultSpeechConfig
    requireVoice := true
    ttsOk := true
    ttsErr := ""
    pythonOut := fun _ => ""
    cancelResult := fun _ => false
    localeLe := fun _ _ => true }

/-- Speech state in which `Stop!` was just voiced. -/
def c1DupSpeech : SpeechState :=
  { lastSpokenTextKey := "stop!"
    lastSpokenAtMs := 0
    waitingForUserAnswer := false
    lastQuestionAtMs := 0
    lastQuestionText := "" }

/-- C1 counterexample: `Stop!` matches the urgency keyword set, yet when it
equals the last spoken key within the 120 s duplicate cooldown the speech
gate suppresses it — the claim's "regardless of the duplicate-speech
cooldown" fails on the code. -/
theorem c1_urgent_duplicate_suppressed :
    isUrgentMessage "Stop!" = true ∧
      outputsSpeak { defaultEnv with now := 1000 } c1DupSpeech "Stop!" =
        .ok (.suppressedDuplicate, c1DupSpeech) := by
  constructor
  · decide
  · rfl

/-- C1 amended: for a trimmed urgent candidate, the step-scoped gate never
blocks it, and the server speech gate voices it exactly when it is
non-empty and none of the three urgency-blind branches fire: the
duplicate-speech cooldown, the question-repeat cooldown, and the
routine-preference-question filter.  The awaiting-answer branch and the
minimum question gap are overridden by urgency. -/
theorem c1_urgent_speech_amended (env : ExecEnv) (sp : SpeechState)
    (ast : SessionSt) (now : Int) (message : String)
    (htrim : jsTrim message = message) (hurg : isUrgentMessage message = true) :
    getBlockedSpeakReason ast now message = none ∧
      (message ≠ "" → env.ttsOk = true →
        ((∃ sp2, outputsSpeak env sp message = .ok (.voiced message, sp2)) ↔
          ¬(collapseWsKey message = sp.lastSpokenTextKey ∧
              env.now - sp.lastSpokenAtMs < env.cfg.speechRepeatCooldownMs) ∧
            ¬(isQuestion message = true ∧ sp.waitingForUserAnswer = true ∧
              env.now - sp.lastQuestionAtMs < env.cfg.questionRepeatCooldownMs) ∧
            ¬(isQuestion message = true ∧ routinePrefMatch message = true))) := by
  constructor
  · unfold getBlockedSpeakReason
    cases ast.currentStep with
    | none => rfl
    | some cur => simp [hurg]
  · intro hne httso
    simp only [outputsSpeak, htrim]
    rw [if_neg hne]
    by_cases h1 : collapseWsKey message = sp.lastSpokenTextKey ∧
        env.now - sp.lastSpokenAtMs < env.cfg.speechRepeatCooldownMs
    · rw [if_pos h1]
      simp [h1]
    · rw [if_neg h1]
      rw [if_neg (show ¬(sp.waitingForUserAnswer = true ∧
          isUrgentMessage message = false) by simp [hurg])]
      by_cases h3 : isQuestion message = true ∧ sp.waitingForUserAnswer = true ∧
          env.now - sp.lastQuestionAtMs < env.cfg.questionRepeatCooldownMs
      · rw [if_pos h3]
        simp [h3]
      · rw [if_neg h3]
        by_cases h4 : isQuestion message = true ∧ routinePrefMatch message = true
        · rw [if_pos h4]
          simp [h4]
        · rw [if_neg h4]
          rw [if_neg (show ¬(isQuestion message = true ∧
              isUrgentMessage message = false ∧
              env.now - sp.lastQuestionAtMs < env.cfg.minQuestionGapMs) by
            simp [hurg])]
          rw [httso]
          simp [h1, h3, h4]

/-- C1 witness: a fresh-state urgent instruction is actually voiced. -/
theorem c1_urgent_speech_witness :
    ∃ sp2, outputsSpeak defaultEnv initialSessionSt.speech "Watch the knife." =
      .ok (.voiced "Watch the knife.", sp2) :=
  ((c1_urgent_speech_amended defaultEnv initialSessionSt.speech initialSessionSt 0
      "Watch the knife." (by decide) (by decide)).2 (by decide) rfl).mpr
    ⟨by decide, by decide, by decide⟩

/-! ## Claim C2 — complete_recipe precondition violations -/

/-- A session whose recipe was already saved this session. -/
def c2AlreadySavedSt : SessionSt :=
  { initialSessionSt with
    activeDishKey := "pancakes"
    recipeStoredForSession := true }

/-- C2 counterexample: when the recipe was already saved this session,
`completeRecipe` returns `{ok := true, saved := false, reason :=
"already_saved_for_session"}` with no `error` field — not the claimed
`{ok:false, saved:false, error}` shape (state is still unchanged). -/
theorem c2_already_saved_shape_counterexample :
    (completeRecipe defaultEnv c2AlreadySavedSt "Pancakes" "Mix and fry.").1 =
        ⟨true, false, none, some "already_saved_for_session", none⟩ ∧
      (completeRecipe defaultEnv c2AlreadySavedSt "Pancakes" "Mix and fry.").2 =
        c2AlreadySavedSt :=
  ⟨rfl, rfl⟩

/-- C2 amended: with well-formed arguments, the no-active-session, dish
mismatch and completion-not-confirmed violations return
`{ok := false, saved := false, error}` and leave the whole session state
(including flags and catalog) unchanged; the save-attempted-twice
violation also leaves the state unchanged but reports
`{ok := true, saved := false, reason := "already_saved_for_session"}`. -/
theorem c2_complete_recipe_preconditions (env : ExecEnv) (st : SessionSt)
    (dishRaw recipeRaw : String)
    (hd : jsTrim dishRaw ≠ "") (hr : jsTrim recipeRaw ≠ "")
    (hk : normalizeDishKey (jsTrim dishRaw) ≠ "") :
    (st.activeDishKey = "" →
      (completeRecipe env st dishRaw recipeRaw).1.ok = false ∧
        (completeRecipe env st dishRaw recipeRaw).1.saved = false ∧
        (completeRecipe env st dishRaw recipeRaw).1.error.isSome = true ∧
        (completeRecipe env st dishRaw recipeRaw).2 = st) ∧
    (st.activeDishKey ≠ "" →
      normalizeDishKey (jsTrim dishRaw) ≠ st.activeDishKey →
      (completeRecipe env st dishRaw recipeRaw).1.ok = false ∧
        (completeRecipe env st dishRaw recipeRaw).1.saved = false ∧
        (completeRecipe env st dishRaw recipeRaw).1.error.isSome = true ∧
        (completeRecipe env st dishRaw recipeRaw).2 = st) ∧
    (normalizeDishKey (jsTrim dishRaw) = st.activeDishKey →
      st.recipeStoredForSession = true →
      (completeRecipe env st dishRaw recipeRaw).1 =
          ⟨true, false, none, some "already_saved_for_session", none⟩ ∧
        (completeRecipe env st dishRaw recipeRaw).2 = st) ∧
    (normalizeDishKey (jsTrim dishRaw) = st.activeDishKey →
      st.recipeStoredForSession = false →
      st.completionConfirmedForSession = false →
      (completeRecipe env st dishRaw recipeRaw).1.ok = false ∧
        (completeRecipe env st dishRaw recipeRaw).1.saved = false ∧
        (completeRecipe env st dishRaw recipeRaw).1.error.isSome = true ∧
        (completeRecipe env st dishRaw recipeRaw).2 = st) := by
  refine ⟨?_, ?_, ?_, ?_⟩
  · intro hact
    simp [completeRecipe, hd, hr, hk, hact]
  · intro hact hne
    simp [completeRecipe, hd, hr, hk, hact, hne]
  · intro heq hstored
    have hact : ¬st.activeDishKey = "" := fun h0 => hk (heq.trans h0)
    simp [completeRecipe, hd, hr, hk, hact, heq, hstored]
  · intro heq hstored hconf
    have hact : ¬st.activeDishKey = "" := fun h0 => hk (heq.trans h0)
    simp [completeRecipe, hd, hr, hk, hact, heq, hstored, hconf]

/-- C2 witness: the no-active-session violation at concrete inputs is
error-shaped and mutates nothing. -/
theorem c2_complete_recipe_witness :
    (completeRecipe defaultEnv initialSessionSt "Pancakes" "Mix.").1.ok = false ∧
      (completeRecipe defaultEnv initialSessionSt "Pancakes" "Mix.").2 =
        initialSessionSt := by
  have h := (c2_complete_recipe_preconditions defaultEnv initialSessionSt
    "Pancakes" "Mix." (by decide) (by decide) (by decide)).1 rfl
  exact ⟨h.1, h.2.2.2⟩

/-! ## Projection helpers for the state-log operations -/

@[simp] theorem addObservationS_currentStep (st : SessionSt) (o : String) :
    (addObservationS st o).currentStep = st.currentStep := by
  unfold addObservationS; split <;> rfl

@[simp] theorem addObservationS_pendingNextStep (st : SessionSt) (o : String) :
    (addObservationS st o).pendingNextStep = st.pendingNextStep := by
  unfold addObservationS; split <;> rfl

@[simp] theorem addObservationS_frameAllowsStepAdvance (st : SessionSt) (o : String) :
    (addObservationS st o).frameAllowsStepAdvance = st.frameAllowsStepAdvance := by
  unfold addObservationS; split <;> rfl

@[simp] theorem addObservationS_completedStepKeys (st : SessionSt) (o : String) :
    (addObservationS st o).completedStepKeys = st.completedStepKeys := by
  unfold addObservationS; split <;> rfl

@[simp] theorem addObservationS_completedSteps (st : SessionSt) (o : String) :
    (addObservationS st o).completedSteps = st.completedSteps := by
  unfold addObservationS; split <;> rfl

@[simp] theorem addObservationS_currentDish (st : SessionSt) (o : String) :
    (addObservationS st o).currentDish = st.currentDish := by
  unfold addObservationS; split <;> rfl

@[simp] theorem addObservationS_latestFrameAssessment (st : SessionSt) (o : String) :
    (addObservationS st o).latestFrameAssessment = st.latestFrameAssessment := by
  unfold addObservationS; split <;> rfl

@[simp] theorem addObservationS_spoken (st : SessionSt) (o : String) :
    (addObservationS st o).spoken = st.spoken := by
  unfold addObservationS; split <;> rfl

@[simp] theorem recordConv_spoken (st : SessionSt) (role content : String) :
    (recordConv st role content).spoken = st.spoken := by
  unfold recordConv; split <;> rfl

@[simp] theorem recordAssistantNote_spoken (st : SessionSt) (t : String) :
    (recordAssistantNote st t).spoken = st.spoken := by
  unfold recordAssistantNote
  by_cases h : jsTrim t = "" <;> simp [h]

/-! ## Claim C3 — gated step proposals are rejected without mutation -/

/-- C3: while a step is locked and `frameAllowsStepAdvance` is false, a
proposal whose sanitized text is non-empty, not too broad, has a
normalized key different from the locked step's and token overlap with it
below 0.65 is rejected with `current_step_not_visually_complete`,
surfacing the locked step, the rejected candidate and the latest frame
status, and the locked step is not mutated. -/
theorem c3_blocked_proposal_rejected (st : SessionSt) (cooking raw cur : String)
    (hcur : st.currentStep = some cur)
    (hgate : st.frameAllowsStepAdvance = false)
    (hs : sanitizePanelStep raw ≠ "")
    (hb : isStepTooBroad (sanitizePanelStep raw) = false)
    (hkey : normalizeStepKey (sanitizePanelStep raw) ≠ normalizeStepKey cur)
    (hov : tokenOverlap (normalizeStepKey cur) (normalizeStepKey (sanitizePanelStep raw)) <
      mkRat 65 100) :
    (applyPanelStepGate st cooking raw).1 =
        .blocked cur (sanitizePanelStep raw) (frameStatusStr st) ∧
      (applyPanelStepGate st cooking raw).2.currentStep = some cur := by
  have hsame : isSameStep cur (sanitizePanelStep raw) = false := by
    unfold isSameStep
    by_cases h1 : normalizeStepKey cur = ""
    · simp [h1]
    · by_cases h2 : normalizeStepKey (sanitizePanelStep raw) = ""
      · simp [h1, h2]
      · have hne : ¬(normalizeStepKey cur = normalizeStepKey (sanitizePanelStep raw)) :=
          fun h => hkey h.symm
        simp [h1, h2, hne, not_le.mpr hov]
  simp only [applyPanelStepGate]
  rw [if_neg hs, if_neg (show ¬isStepTooBroad (sanitizePanelStep raw) = true by
    simp [hb])]
  simp only [hcur]
  rw [if_neg (show ¬isSameStep cur (sanitizePanelStep raw) = true by simp [hsame])]
  simp [hgate, frameStatusStr]

/-- A gated session: step locked, latest frame says in progress. -/
def c3GatedSt : SessionSt :=
  { initialSessionSt with
    currentStep := some "Grab 2 eggs."
    frameAllowsStepAdvance := false
    latestFrameAssessment :=
      some ⟨"Eggs not yet on bench.", .inProgress, mkRat 1 2, "No eggs visible."⟩ }

/-- C3 witness: a concrete gated session rejects a genuinely different
step and keeps the locked step. -/
theorem c3_blocked_proposal_witness :
    (applyPanelStepGate c3GatedSt "pancakes" "Crack the eggs into a bowl.").1 =
        .blocked "Grab 2 eggs." "Crack the eggs into a bowl." "in_progress" ∧
      (applyPanelStepGate c3GatedSt "pancakes" "Crack the eggs into a bowl.").2.currentStep =
        some "Grab 2 eggs." := by
  have h := c3_blocked_proposal_rejected c3GatedSt "pancakes"
    "Crack the eggs into a bowl." "Grab 2 eggs." rfl rfl (by decide) (by decide)
    (by decide) (by decide)
  exact ⟨h.1.trans (by decide), h.2⟩

/-! ## Claim C5 — frame-assessment coercion -/

/-- The word-cap invariant of `trimToWordLimit`. -/
theorem wordCount_trimToWordLimit (s : String) (n : Nat) (hn : 1 ≤ n) :
    wordCountS (trimToWordLimit s n) ≤ n := by
  unfold trimToWordLimit
  by_cases h0 : splitTok jsWs s.toList = []
  · rw [if_pos h0]
    simp [wordCountS, splitTok, splitTokAux]
  · rw [if_neg h0]
    by_cases hle : (splitTok jsWs s.toList).length ≤ n
    · rw [if_pos hle]
      unfold wordCountS
      rw [show (String.mk (joinSp (splitTok jsWs s.toList))).toList =
        joinSp (splitTok jsWs s.toList) from rfl]
      rw [splitTok_joinSp _ (splitTok_tokens jsWs s.toList)]
      exact hle
    · rw [if_neg hle]
      unfold wordCountS
      rw [show (String.mk (joinSp ((splitTok jsWs s.toList).take n) ++
          ['.', '.', '.'])).toList =
        joinSp ((splitTok jsWs s.toList).take n) ++ ['.', '.', '.'] from rfl]
      have hlen : n < (splitTok jsWs s.toList).length := not_le.mp hle
      rw [splitTok_joinSp_ext ((splitTok jsWs s.toList).take n) ['.', '.', '.']
        (fun t ht => splitTok_tokens jsWs s.toList t (List.take_subset n _ ht))
        (by intro c hc; simp at hc; subst hc; rfl)
        (by
          have : ((splitTok jsWs s.toList).take n).length = n :=
            List.length_take_of_le (le_of_lt hlen)
          intro hnil
          rw [hnil] at this
          simp at this
          omega)]
      rw [List.length_take_of_le (le_of_lt hlen)]

/-- An invalid or missing dynamic `step_status` value coerces to the
fallback. -/
theorem coerceStepStatus_invalid (v : Option JsVal) (fallback : StepStatus)
    (h : validStatusVal v = false) : coerceStepStatus v fallback = fallback := by
  cases v with
  | none => rfl
  | some w =>
    cases w with
    | str s =>
      unfold validStatusVal at h
      simp only [Bool.or_eq_false_iff, decide_eq_false_iff_not] at h
      obtain ⟨⟨⟨h1, h2⟩, h3⟩, h4⟩ := h
      unfold coerceStepStatus
      simp [h1, h2, h3, h4]
    | num q => rfl
    | nan => rfl
    | jsBool b => rfl
    | jsNull => rfl
    | jsArr => rfl
    | jsObj => rfl

/-- Coerced confidence always lies in [0, 1]. -/
theorem coerceConfidence_bounds (v : Option JsVal) :
    0 ≤ coerceConfidence v ∧ coerceConfidence v ≤ 1 := by
  have hhalf : (0 : ℚ) ≤ mkRat 1 2 ∧ (mkRat 1 2 : ℚ) ≤ 1 := by decide
  cases v with
  | none => exact hhalf
  | some w =>
    cases w with
    | num q => exact ⟨le_max_left 0 _, max_le (by norm_num) (min_le_left 1 q)⟩
    | str s => exact hhalf
    | nan => exact hhalf
    | jsBool b => exact hhalf
    | jsNull => exact hhalf
    | jsArr => exact hhalf
    | jsObj => exact hhalf

/-- A non-numeric confidence value coerces to 1/2. -/
theorem coerceConfidence_default (v : Option JsVal)
    (h : ∀ q : ℚ, v ≠ some (.num q)) : coerceConfidence v = mkRat 1 2 := by
  cases v with
  | none => rfl
  | some w =>
    cases w with
    | num q => exact absurd rfl (h q)
    | str s => rfl
    | nan => rfl
    | jsBool b => rfl
    | jsNull => rfl
    | jsArr => rfl
    | jsObj => rfl

/-- The truncating branch of `trimToWordLimit` appends an ellipsis to the
first `n` words. -/
theorem trimToWordLimit_truncates (s : String) (n : Nat)
    (h : n < (splitTok jsWs s.toList).length) :
    trimToWordLimit s n =
      String.mk (joinSp ((splitTok jsWs s.toList).take n) ++ ['.', '.', '.']) := by
  unfold trimToWordLimit
  rw [if_neg (fun hnil => by rw [hnil] at h; simp at h), if_neg (not_le.mpr h)]

/-- C5: frame-assessment coercion is total over every possible parse
result: an invalid or missing `step_status` (after the `??` fallback to
`stepStatus`) defaults to `unclear`, or `not_started` when no step is
locked; confidence is clamped to [0, 1] and defaults to 1/2 when the field
is not a finite number; observation and reason are word-capped at 14 and
18 with an ellipsis appended on truncation, and fall back to the fixed
strings when absent. -/
theorem c5_frame_coercion_total (parsed : JsRecord) (hasLockedStep : Bool) :
    (validStatusVal
        (jsCoalesce (getField parsed "step_status") (getField parsed "stepStatus")) =
          false →
      (mkFrameAssessment parsed hasLockedStep).stepStatus =
        (if hasLockedStep then StepStatus.unclear else StepStatus.notStarted)) ∧
    (0 ≤ (mkFrameAssessment parsed hasLockedStep).confidence ∧
      (mkFrameAssessment parsed hasLockedStep).confidence ≤ 1) ∧
    ((∀ q : ℚ, getField parsed "confidence" ≠ some (.num q)) →
      (mkFrameAssessment parsed hasLockedStep).confidence = mkRat 1 2) ∧
    (wordCountS (mkFrameAssessment parsed hasLockedStep).observation ≤ 14 ∧
      wordCountS (mkFrameAssessment parsed hasLockedStep).reason ≤ 18) ∧
    ((∀ s : String, getField parsed "observation" ≠ some (.str s)) →
      (mkFrameAssessment parsed hasLockedStep).observation =
        "No clear visual change.") ∧
    ((∀ s : String, getField parsed "reason" ≠ some (.str s)) →
      (mkFrameAssessment parsed hasLockedStep).reason =
        "Insufficient visual evidence.") ∧
    (∀ s : String, getField parsed "observation" = some (.str s) →
      14 < (splitTok jsWs s.toList).length →
      (mkFrameAssessment parsed hasLockedStep).observation =
        String.mk (joinSp ((splitTok jsWs s.toList).take 14) ++ ['.', '.', '.'])) := by
  refine ⟨?_, ?_, ?_, ⟨?_, ?_⟩, ?_, ?_, ?_⟩
  · intro hv
    exact coerceStepStatus_invalid _ _ hv
  · exact coerceConfidence_bounds (getField parsed "confidence")
  · intro hq
    exact coerceConfidence_default _ hq
  · exact wordCount_trimToWordLimit _ 14 (by decide)
  · exact wordCount_trimToWordLimit _ 18 (by decide)
  · intro hs
    cases hres : getField parsed "observation" with
    | none =>
      simp only [mkFrameAssessment, hres]
      decide
    | some v =>
      cases v with
      | str s => exact absurd hres (hs s)
      | num q => simp only [mkFrameAssessment, hres]; decide
      | nan => simp only [mkFrameAssessment, hres]; decide
      | jsBool b => simp only [mkFrameAssessment, hres]; decide
      | jsNull => simp only [mkFrameAssessment, hres]; decide
      | jsArr => simp only [mkFrameAssessment, hres]; decide
      | jsObj => simp only [mkFrameAssessment, hres]; decide
  · intro hs
    cases hres : getField parsed "reason" with
    | none =>
      simp only [mkFrameAssessment, hres]
      decide
    | some v =>
      cases v with
      | str s => exact absurd hres (hs s)
      | num q => simp only [mkFrameAssessment, hres]; decide
      | nan => simp only [mkFrameAssessment, hres]; decide
      | jsBool b => simp only [mkFrameAssessment, hres]; decide
      | jsNull => simp only [mkFrameAssessment, hres]; decide
      | jsArr => simp only [mkFrameAssessment, hres]; decide
      | jsObj => simp only [mkFrameAssessment, hres]; decide
  · intro s hres hlong
    simp only [mkFrameAssessment, hres]
    exact trimToWordLimit_truncates s 14 hlong

/-- The parsed record used by the C5 witness: a 16-word observation, an
invalid `step_status`, a NaN confidence and no reason field. -/
def c5Parsed : JsRecord :=
  [("observation",
    .str "one two three four five six seven eight nine ten eleven twelve thirteen fourteen fifteen sixteen"),
   ("step_status", .str "totally_done"),
   ("confidence", .nan)]

/-- C5 witness: the coercion at a concrete malformed parse. -/
theorem c5_frame_coercion_witness :
    (mkFrameAssessment c5Parsed true).stepStatus = StepStatus.unclear ∧
      (mkFrameAssessment c5Parsed true).confidence = mkRat 1 2 ∧
      (mkFrameAssessment c5Parsed true).reason = "Insufficient visual evidence." ∧
      (mkFrameAssessment c5Parsed true).observation =
        "one two three four five six seven eight nine ten eleven twelve thirteen fourteen..." := by
  have h := c5_frame_coercion_total c5Parsed true
  refine ⟨(h.1 (by decide)).trans (by decide), ?_, ?_, ?_⟩
  · exact h.2.2.1 (by
      intro q hq
      rw [show getField c5Parsed "confidence" = some JsVal.nan from rfl] at hq
      exact JsVal.noConfusion (Option.some.inj hq))
  · exact h.2.2.2.2.2.1 (by
      intro s hs
      rw [show getField c5Parsed "reason" = none from rfl] at hs
      exact Option.noConfusion hs)
  · exact (h.2.2.2.2.2.2
      "one two three four five six seven eight nine ten eleven twelve thirteen fourteen fifteen sixteen"
      rfl (by decide)).trans (by decide)

/-! ## Claim C4 — shape of sanitized step text -/

/-- A terminator-free string does not end with a terminator. -/
theorem endsWithTerm_false_of_noterm (s2 : List Char)
    (h : ∀ c ∈ s2, isTermCh c = false) : endsWithTerm (String.mk s2) = false := by
  unfold endsWithTerm
  cases hl : (String.mk s2).toList.getLast? with
  | none => rfl
  | some c =>
    have hmem : c ∈ s2 := by
      have hne : s2 ≠ [] := by
        intro hnil
        rw [show (String.mk s2).toList = s2 from rfl, hnil] at hl
        simp at hl
      rw [show (String.mk s2).toList = s2 from rfl, List.getLast?_eq_getLast s2 hne] at hl
      have := List.getLast_mem hne
      rwa [Option.some.inj hl] at this
    exact h c hmem

/-- Shape of `sanitizeStepFinish` on inputs that are either terminator-free
or a terminator-free body with one trailing terminator — the only two
shapes sentence truncation can produce. -/
theorem sanitizeStepFinish_shape (s2 : List Char)
    (h : (∀ c ∈ s2, isTermCh c = false) ∨
      (∃ body tc, s2 = body ++ [tc] ∧ (∀ c ∈ body, isTermCh c = false) ∧
        isTermCh tc = true)) :
    endsWithTerm (sanitizeStepFinish s2) = true ∧
      (splitTok jsWs (stripTrailingTerm (sanitizeStepFinish s2).toList)).length ≤ 12 := by
  obtain ⟨body, tc, hdecomp, hb, htc⟩ :
      ∃ body tc, (if endsWithTerm (String.mk s2) then s2 else s2 ++ ['.']) = body ++ [tc] ∧
        (∀ c ∈ body, isTermCh c = false) ∧ isTermCh tc = true := by
    rcases h with hfree | ⟨body, tc, rfl, hb, htc⟩
    · refine ⟨s2, '.', ?_, hfree, rfl⟩
      rw [if_neg (by simp [endsWithTerm_false_of_noterm s2 hfree])]
    · refine ⟨body, tc, ?_, hb, htc⟩
      rw [if_pos (by
        unfold endsWithTerm
        rw [show (String.mk (body ++ [tc])).toList = body ++ [tc] from rfl,
          List.getLast?_concat]
        exact htc)]
  simp only [sanitizeStepFinish]
  rw [hdecomp, stripTrailingTerm_concat body tc hb htc]
  have hws := splitTok_tokens jsWs body
  have hwsterm : ∀ t ∈ splitTok jsWs body, ∀ c ∈ t, isTermCh c = false :=
    fun t ht c hc => hb c (splitTok_mem_chars jsWs body t ht c hc)
  by_cases hlen : 12 < (splitTok jsWs body).length
  · rw [if_pos hlen]
    constructor
    · unfold endsWithTerm
      rw [show (String.mk (joinSp ((splitTok jsWs body).take 12) ++ ['.'])).toList =
        joinSp ((splitTok jsWs body).take 12) ++ ['.'] from rfl]
      rw [List.getLast?_concat]
      rfl
    · rw [show (String.mk (joinSp ((splitTok jsWs body).take 12) ++ ['.'])).toList =
        joinSp ((splitTok jsWs body).take 12) ++ ['.'] from rfl]
      have hjterm : ∀ c ∈ joinSp ((splitTok jsWs body).take 12), isTermCh c = false := by
        intro c hc
        rcases joinSp_chars _ c hc with rfl | ⟨t, ht, hct⟩
        · rfl
        · exact hwsterm t (List.take_subset 12 _ ht) c hct
      rw [show joinSp ((splitTok jsWs body).take 12) ++ ['.'] =
        joinSp ((splitTok jsWs body).take 12) ++ ['.'] from rfl,
        stripTrailingTerm_concat _ '.' hjterm rfl]
      rw [splitTok_joinSp _ (fun t ht => hws t (List.take_subset 12 _ ht))]
      rw [List.length_take_of_le (le_of_lt hlen)]
  · rw [if_neg hlen]
    constructor
    · unfold endsWithTerm
      rw [show (String.mk (body ++ [tc])).toList = body ++ [tc] from rfl,
        List.getLast?_concat]
      exact htc
    · rw [show (String.mk (body ++ [tc])).toList = body ++ [tc] from rfl,
        stripTrailingTerm_concat body tc hb htc]
      exact le_of_not_lt hlen

/-- C4 amended: sanitization returns either the empty string or a text
ending in terminal punctuation whose word count — after removing the
trailing run of terminal punctuation, which may stand as its own
whitespace-separated token — is at most 12. -/
theorem c4_fromLine_shape (firstLine : List Char) :
    sanitizeFromLine firstLine = "" ∨
      (endsWithTerm (sanitizeFromLine firstLine) = true ∧
        (splitTok jsWs (stripTrailingTerm (sanitizeFromLine firstLine).toList)).length ≤ 12) := by
  simp only [sanitizeFromLine]
  by_cases h1 : trimL (stripLabelBullet (stripLabelStepNum (stripLabelNextStep firstLine))) = []
  · rw [if_pos h1]
    exact Or.inl rfl
  · rw [if_neg h1]
    refine Or.inr ?_
    cases hdw : (trimL (stripLabelBullet (stripLabelStepNum
        (stripLabelNextStep firstLine)))).dropWhile (fun c => !isTermCh c) with
    | nil =>
      apply sanitizeStepFinish_shape
      left
      intro c hc
      have := (List.dropWhile_eq_nil_iff.mp hdw) c hc
      simpa using this
    | cons tc rest =>
      have htc : isTermCh tc = true := by
        have := dropWhile_head_not (fun c => !isTermCh c) _ tc rest hdw
        simpa using this
      apply sanitizeStepFinish_shape
      right
      refine ⟨((trimL (stripLabelBullet (stripLabelStepNum
          (stripLabelNextStep firstLine)))).takeWhile
            (fun c => !isTermCh c)).dropWhile jsWs, tc, ?_, ?_, htc⟩
      · exact trimL_concat_nonws _ tc (term_not_ws tc htc)
      · intro c hc
        have hc2 : c ∈ (trimL (stripLabelBullet (stripLabelStepNum
            (stripLabelNextStep firstLine)))).takeWhile (fun c => !isTermCh c) :=
          (List.dropWhile_sublist jsWs).mem hc
        have := List.mem_takeWhile_imp hc2
        simpa using this

/-- C4 amended: sanitization returns either the empty string or a text
ending in terminal punctuation whose word count — after removing the
trailing run of terminal punctuation, which may stand as its own
whitespace-separated token — is at most 12. -/
theorem c4_sanitize_shape (raw : String) :
    sanitizePanelStep raw = "" ∨
      (endsWithTerm (sanitizePanelStep raw) = true ∧
        (splitTok jsWs (stripTrailingTerm (sanitizePanelStep raw).toList)).length ≤ 12) := by
  unfold sanitizePanelStep
  cases hfind : sanitizeFirstLine raw with
  | none => exact Or.inl rfl
  | some firstLine => exact c4_fromLine_shape firstLine

/-- C4 counterexample: a sanitized result can contain 13 whitespace-
separated tokens (12 words plus a detached terminal punctuation token),
which the program's own whitespace word count — the one `isStepTooBroad`
uses — counts as 13 words, refuting the "at most 12 whitespace-separated
words" reading of the claim. -/
theorem c4_thirteen_token_counterexample :
    sanitizePanelStep "a b c d e f g h i j k l ." = "a b c d e f g h i j k l ." ∧
      wordCountS (sanitizePanelStep "a b c d e f g h i j k l .") = 13 := by
  constructor
  · decide
  · decide

/-! ## Claim C8 — catalog fuzzy matching -/

/-- The best-candidate fold of `findBestFuzzyDishMatch`: the accumulator
tracks the best score seen, its witness recipe, and dominates all visited
scores. -/
theorem foldBest_spec (q : String) :
    ∀ (rs : List StoredRecipe) (acc : ℚ × Option StoredRecipe),
      (∀ r, acc.2 = some r → scoreDishMatch q r.dishKey = acc.1) →
      (∀ r,
          (rs.foldl
            (fun acc r =>
              if acc.1 < scoreDishMatch q r.dishKey
              then (scoreDishMatch q r.dishKey, some r) else acc) acc).2 = some r →
        scoreDishMatch q r.dishKey =
            (rs.foldl
              (fun acc r =>
                if acc.1 < scoreDishMatch q r.dishKey
                then (scoreDishMatch q r.dishKey, some r) else acc) acc).1 ∧
          (acc.2 = some r ∨ r ∈ rs)) ∧
      acc.1 ≤
        (rs.foldl
          (fun acc r =>
            if acc.1 < scoreDishMatch q r.dishKey
            then (scoreDishMatch q r.dishKey, some r) else acc) acc).1 ∧
      (∀ e ∈ rs,
        scoreDishMatch q e.dishKey ≤
          (rs.foldl
            (fun acc r =>
              if acc.1 < scoreDishMatch q r.dishKey
              then (scoreDishMatch q r.dishKey, some r) else acc) acc).1) := by
  intro rs
  induction rs with
  | nil =>
    intro acc hacc
    exact ⟨fun r hr => ⟨hacc r hr, Or.inl hr⟩, le_refl _, by simp⟩
  | cons hd tl ih =>
    intro acc hacc
    simp only [List.foldl_cons]
    by_cases himp : acc.1 < scoreDishMatch q hd.dishKey
    · rw [if_pos himp]
      have ih2 := ih (scoreDishMatch q hd.dishKey, some hd)
        (fun r hr => by
          have heq : hd = r := Option.some.inj hr
          rw [← heq])
      refine ⟨?_, ?_, ?_⟩
      · intro r hr
        rcases ih2.1 r hr with ⟨he, hmem⟩
        refine ⟨he, ?_⟩
        rcases hmem with hm | hm
        · exact Or.inr (List.mem_cons.mpr (Or.inl (Option.some.inj hm).symm))
        · exact Or.inr (List.mem_cons_of_mem hd hm)
      · exact le_of_lt (lt_of_lt_of_le himp ih2.2.1)
      · intro e he
        rcases List.mem_cons.mp he with rfl | he
        · exact ih2.2.1
        · exact ih2.2.2 e he
    · rw [if_neg himp]
      have ih2 := ih acc hacc
      refine ⟨?_, ih2.2.1, ?_⟩
      · intro r hr
        rcases ih2.1 r hr with ⟨he, hmem⟩
        refine ⟨he, ?_⟩
        rcases hmem with hm | hm
        · exact Or.inl hm
        · exact Or.inr (List.mem_cons_of_mem hd hm)
      · intro e he
        rcases List.mem_cons.mp he with rfl | he
        · exact le_trans (le_of_not_lt himp) ih2.2.1
        · exact ih2.2.2 e he

/-- `findBestFuzzyDishMatch` accepts only a member of the catalog whose
score is at least 0.62 and maximal. -/
theorem findBestFuzzyDishMatch_spec (q : String) (recipes : List StoredRecipe)
    (r : StoredRecipe) (h : findBestFuzzyDishMatch q recipes = some r) :
    r ∈ recipes ∧ mkRat 62 100 ≤ scoreDishMatch q r.dishKey ∧
      ∀ e ∈ recipes, scoreDishMatch q e.dishKey ≤ scoreDishMatch q r.dishKey := by
  unfold findBestFuzzyDishMatch at h
  by_cases hth :
      (recipes.foldl
        (fun acc r =>
          if acc.1 < scoreDishMatch q r.dishKey
          then (scoreDishMatch q r.dishKey, some r) else acc) (0, none)).1 <
        mkRat 62 100
  · rw [if_pos hth] at h
    exact absurd h (by simp)
  · rw [if_neg hth] at h
    have hspec := foldBest_spec q recipes (0, none) (by simp)
    rcases hspec.1 r h with ⟨hscore, hmem⟩
    rcases hmem with hm | hm
    · exact absurd hm (by simp)
    · refine ⟨hm, ?_, ?_⟩
      · rw [hscore]
        exact le_of_not_lt hth
      · intro e he
        rw [hscore]
        exact hspec.2.2 e he

/-- All-zero scores leave the best-candidate fold at its initial value. -/
theorem foldBest_zero (q : String) (rs : List StoredRecipe)
    (h : ∀ e ∈ rs, scoreDishMatch q e.dishKey = 0) :
    rs.foldl
        (fun acc r =>
          if acc.1 < scoreDishMatch q r.dishKey
          then (scoreDishMatch q r.dishKey, some r) else acc)
        ((0 : ℚ), (none : Option StoredRecipe)) = (0, none) := by
  induction rs with
  | nil => rfl
  | cons hd tl ih =>
    simp only [List.foldl_cons]
    rw [h hd (by simp), if_neg (lt_irrefl 0)]
    exact ih fun e he => h e (List.mem_cons_of_mem hd he)

/-- A query sharing no token with a candidate key, not equal to it and not
in a substring relation with it, scores 0. -/
theorem scoreDishMatch_zero_of_disjoint (queryKey candidateKey : String)
    (hne : queryKey ≠ candidateKey)
    (hs1 : strIncludes candidateKey queryKey = false)
    (hs2 : strIncludes queryKey candidateKey = false)
    (hdisj : ∀ t ∈ tokenizeDishKey queryKey,
      (tokenizeDishKey candidateKey).contains t = false) :
    scoreDishMatch queryKey candidateKey = 0 := by
  unfold scoreDishMatch
  by_cases h0 : queryKey = "" ∨ candidateKey = ""
  · rcases h0 with h0 | h0 <;> simp [h0]
  · push_neg at h0
    rw [if_neg (by simp [h0.1, h0.2]), if_neg hne, if_neg (by simp [hs1, hs2])]
    by_cases hq0 : (tokenizeDishKey queryKey).length = 0 ∨
        (tokenizeDishKey candidateKey).length = 0
    · rcases hq0 with hq0 | hq0 <;> simp [hq0]
    · push_neg at hq0
      rw [if_neg (by simp [hq0.1, hq0.2])]
      have hshared : ((tokenizeDishKey queryKey).filter fun t =>
          (tokenizeDishKey candidateKey).contains t) = [] := by
        rw [List.filter_eq_nil_iff]
        intro t ht
        simpa using hdisj t ht
      rw [if_pos (show (List.filter (fun t => (tokenizeDishKey candidateKey).contains t)
        (tokenizeDishKey queryKey)).length = 0 by rw [hshared]; rfl)]

/-- If the best-candidate fold ends with no candidate, it never moved off
its initial accumulator. -/
theorem foldBest_none (q : String) :
    ∀ (rs : List StoredRecipe) (acc : ℚ × Option StoredRecipe),
      (rs.foldl
        (fun acc r =>
          if acc.1 < scoreDishMatch q r.dishKey
          then (scoreDishMatch q r.dishKey, some r) else acc) acc).2 = none →
      rs.foldl
        (fun acc r =>
          if acc.1 < scoreDishMatch q r.dishKey
          then (scoreDishMatch q r.dishKey, some r) else acc) acc = acc := by
  intro rs
  induction rs with
  | nil => intro acc _; rfl
  | cons hd tl ih =>
    intro acc h
    simp only [List.foldl_cons] at h ⊢
    by_cases himp : acc.1 < scoreDishMatch q hd.dishKey
    · rw [if_pos himp] at h ⊢
      have h2 := ih (scoreDishMatch q hd.dishKey, some hd) h
      rw [h2] at h
      simp at h
    · rw [if_neg himp] at h ⊢
      exact ih acc h

/-- Completeness of the fuzzy matcher: if some catalog entry reaches the
0.62 threshold, the scan returns a recipe. -/
theorem findBestFuzzyDishMatch_complete (q : String) (recipes : List StoredRecipe)
    (e : StoredRecipe) (he : e ∈ recipes)
    (hsc : mkRat 62 100 ≤ scoreDishMatch q e.dishKey) :
    findBestFuzzyDishMatch q recipes ≠ none := by
  unfold findBestFuzzyDishMatch
  have hspec := foldBest_spec q recipes (0, none) (by simp)
  have hge : mkRat 62 100 ≤
      (recipes.foldl
        (fun acc r =>
          if acc.1 < scoreDishMatch q r.dishKey
          then (scoreDishMatch q r.dishKey, some r) else acc)
        ((0 : ℚ), (none : Option StoredRecipe))).1 :=
    le_trans hsc (hspec.2.2 e he)
  rw [if_neg (not_lt.mpr hge)]
  intro hnone
  rw [foldBest_none q recipes (0, none) hnone] at hge
  exact absurd hge (by decide)

/-- C8: the fuzzy score of a non-exact, non-substring candidate is
`min 1 (max overlap (0.9·coverage) + prefixBonus)` with `overlap =
shared/min(|q|,|c|)`, `coverage = shared/|q|` and `prefixBonus = 0.08`
exactly when the first tokens match (including when no token is shared, in
which case the score is 0 and the formula agrees); a fuzzy lookup accepts
only a maximal-scoring candidate with score ≥ 0.62; conversely, whenever
some catalog entry scores ≥ 0.62 against a nonempty query key the lookup
reports a match; and a query that is token-disjoint from every candidate
and in no substring/equality relation with any candidate key yields
`matchType = "none"`, e.g. `spaghetti` against a catalog holding only
`pasta bolognese`. -/
theorem c8_catalog_matcher :
    (∀ queryKey candidateKey : String,
      queryKey ≠ "" → candidateKey ≠ "" → queryKey ≠ candidateKey →
      strIncludes candidateKey queryKey = false →
      strIncludes queryKey candidateKey = false →
      tokenizeDishKey queryKey ≠ [] → tokenizeDishKey candidateKey ≠ [] →
      scoreDishMatch queryKey candidateKey =
        min 1
          (max
            (mkRat (((tokenizeDishKey queryKey).filter fun t =>
                (tokenizeDishKey candidateKey).contains t).length : Int)
              (min (tokenizeDishKey queryKey).length
                (tokenizeDishKey candidateKey).length))
            (mkRat (((tokenizeDishKey queryKey).filter fun t =>
                (tokenizeDishKey candidateKey).contains t).length : Int)
              (tokenizeDishKey queryKey).length * mkRat 9 10) +
          (if (tokenizeDishKey candidateKey).head? = (tokenizeDishKey queryKey).head?
            then mkRat 8 100 else 0))) ∧
    (∀ (catalog : List StoredRecipe) (dishQuery : String) (r : StoredRecipe),
      (lookupByDish catalog dishQuery).matchType = "fuzzy" →
      (lookupByDish catalog dishQuery).recipe = some r →
      r ∈ catalog ∧
        mkRat 62 100 ≤
          scoreDishMatch (normalizeDishKey (jsTrim dishQuery)) r.dishKey ∧
        ∀ e ∈ catalog,
          scoreDishMatch (normalizeDishKey (jsTrim dishQuery)) e.dishKey ≤
            scoreDishMatch (normalizeDishKey (jsTrim dishQuery)) r.dishKey) ∧
    (∀ (catalog : List StoredRecipe) (dishQuery : String) (e : StoredRecipe),
      e ∈ catalog →
      normalizeDishKey (jsTrim dishQuery) ≠ "" →
      mkRat 62 100 ≤ scoreDishMatch (normalizeDishKey (jsTrim dishQuery)) e.dishKey →
      (lookupByDish catalog dishQuery).found = true) ∧
    (∀ (catalog : List StoredRecipe) (dishQuery : String),
      (∀ e ∈ catalog,
        normalizeDishKey (jsTrim dishQuery) ≠ e.dishKey ∧
          strIncludes e.dishKey (normalizeDishKey (jsTrim dishQuery)) = false ∧
          strIncludes (normalizeDishKey (jsTrim dishQuery)) e.dishKey = false ∧
          ∀ t ∈ tokenizeDishKey (normalizeDishKey (jsTrim dishQuery)),
            (tokenizeDishKey e.dishKey).contains t = false) →
      (lookupByDish catalog dishQuery).matchType = "none") ∧
    (lookupByDish [⟨"Pasta Bolognese", "pasta bolognese", "Recipe text.",
        "2026-01-01", 1⟩] "spaghetti").matchType = "none" := by
  refine ⟨?_, ?_, ?_, ?_, by decide⟩
  · intro queryKey candidateKey hq hc hne hs1 hs2 hqt hct
    unfold scoreDishMatch
    rw [if_neg (by simp [hq, hc]), if_neg hne, if_neg (by simp [hs1, hs2]),
      if_neg (by simp [List.length_eq_zero, hqt, hct])]
    by_cases hsh : ((tokenizeDishKey queryKey).filter fun t =>
        (tokenizeDishKey candidateKey).contains t).length = 0
    · rw [if_pos hsh]
      -- with no shared token th prefix bonus is 0 and the formula collapses to 0
      have hpfx : ¬((tokenizeDishKey candidateKey).head? =
          (tokenizeDishKey queryKey).head?) := by
        intro hhead
        obtain ⟨q0, qrest, hq0⟩ := List.exists_cons_of_ne_nil hqt
        obtain ⟨c0, crest, hc0⟩ := List.exists_cons_of_ne_nil hct
        rw [hq0, hc0] at hhead
        simp only [List.head?_cons, Option.some.injEq] at hhead
        have hq0mem : q0 ∈ (tokenizeDishKey queryKey).filter fun t =>
            (tokenizeDishKey candidateKey).contains t := by
          rw [List.mem_filter]
          refine ⟨by rw [hq0]; simp, ?_⟩
          rw [hc0, hhead]
          simp
        rw [List.length_eq_zero] at hsh
        rw [hsh] at hq0mem
        simp at hq0mem
      rw [hsh, if_neg hpfx]
      have : mkRat ((0 : Nat) : Int) (min (tokenizeDishKey queryKey).length
          (tokenizeDishKey candidateKey).length) = 0 := by
        simp [Rat.mkRat_eq_div]
      have h2 : mkRat ((0 : Nat) : Int) (tokenizeDishKey queryKey).length = 0 := by
        simp [Rat.mkRat_eq_div]
      rw [this, h2]
      norm_num
    · rw [if_neg hsh]
      obtain ⟨q0, qrest, hq0⟩ := List.exists_cons_of_ne_nil hqt
      obtain ⟨c0, crest, hc0⟩ := List.exists_cons_of_ne_nil hct
      rw [hq0, hc0]
      simp only [List.head?_cons, Option.some.injEq]
      have hc0ne : c0 ≠ "" := by
        have := (splitTok_tokens jsWs (normalizeDishKey candidateKey).toList)
        intro hc0e
        have hmem : c0 ∈ tokenizeDishKey candidateKey := by rw [hc0]; simp
        unfold tokenizeDishKey at hmem
        by_cases hk : normalizeDishKey candidateKey = ""
        · rw [if_pos hk] at hmem
          simp at hmem
        · rw [if_neg hk] at hmem
          rw [List.mem_map] at hmem
          obtain ⟨t, ht, hteq⟩ := hmem
          have := (splitTok_tokens jsWs (normalizeDishKey candidateKey).toList t ht).1
          apply this
          rw [← hteq] at hc0e
          cases t with
          | nil => rfl
          | cons a as => exact congrArg String.toList hc0e
      by_cases hhead : c0 = q0
      · have hq0ne : q0 ≠ "" := hhead ▸ hc0ne
        rw [if_pos (by simp [hhead, hq0ne]), if_pos hhead]
      · rw [if_neg (by simp [hhead]), if_neg hhead]
  · intro catalog dishQuery r hmt hrec
    unfold lookupByDish at hmt hrec
    by_cases hk : normalizeDishKey (jsTrim dishQuery) = ""
    · rw [if_pos hk] at hmt
      simp at hmt
    · rw [if_neg hk] at hmt hrec
      cases hex : catalog.find? (fun e => e.dishKey = normalizeDishKey (jsTrim dishQuery)) with
      | some exact0 =>
        rw [hex] at hmt
        simp at hmt
      | none =>
        rw [hex] at hmt hrec
        cases hfz : findBestFuzzyDishMatch (normalizeDishKey (jsTrim dishQuery)) catalog with
        | none =>
          rw [hfz] at hmt
          simp at hmt
        | some fz =>
          rw [hfz] at hrec
          obtain rfl : fz = r := Option.some.inj hrec
          exact findBestFuzzyDishMatch_spec _ catalog _ hfz
  · intro catalog dishQuery e he hk hsc
    unfold lookupByDish
    rw [if_neg hk]
    cases hex : catalog.find? (fun x => x.dishKey = normalizeDishKey (jsTrim dishQuery)) with
    | some ex => rfl
    | none =>
      cases hfz : findBestFuzzyDishMatch (normalizeDishKey (jsTrim dishQuery)) catalog with
      | some fz => rfl
      | none => exact absurd hfz (findBestFuzzyDishMatch_complete _ catalog e he hsc)
  · intro catalog dishQuery hall
    unfold lookupByDish
    by_cases hk : normalizeDishKey (jsTrim dishQuery) = ""
    · rw [if_pos hk]
    · rw [if_neg hk]
      have hfind : catalog.find?
          (fun e => e.dishKey = normalizeDishKey (jsTrim dishQuery)) = none := by
        rw [List.find?_eq_none]
        intro e he
        simp only [decide_eq_true_eq]
        exact fun h => (hall e he).1 h.symm
      rw [hfind]
      have hfz : findBestFuzzyDishMatch (normalizeDishKey (jsTrim dishQuery)) catalog =
          none := by
        unfold findBestFuzzyDishMatch
        rw [foldBest_zero _ catalog (fun e he =>
          scoreDishMatch_zero_of_disjoint _ _ (hall e he).1 (hall e he).2.1
            (hall e he).2.2.1 (hall e he).2.2.2)]
        rw [if_pos (by decide)]
      rw [hfz]

/-- C8 counterexample: the query `spag` shares no token with the only
candidate key `spaghetti bolognese`, yet the lookup returns
`matchType = "fuzzy"` through the substring branch (score 0.95), refuting
"when the query shares no token with any candidate it returns
matchType=none". -/
theorem c8_substring_counterexample :
    (lookupByDish [⟨"Spaghetti Bolognese", "spaghetti bolognese", "Recipe text.",
        "2026-01-01", 1⟩] "spag").matchType = "fuzzy" ∧
      (∀ t ∈ tokenizeDishKey (normalizeDishKey (jsTrim "spag")),
        (tokenizeDishKey "spaghetti bolognese").contains t = false) := by
  constructor
  · decide
  · decide

/-- C8 witness: the acceptance part applied to the substring-match
example, and the scoring formula applied to concrete keys. -/
theorem c8_catalog_matcher_witness :
    (⟨"Spaghetti Bolognese", "spaghetti bolognese", "Recipe text.",
        "2026-01-01", 1⟩ : StoredRecipe) ∈
        [(⟨"Spaghetti Bolognese", "spaghetti bolognese", "Recipe text.",
          "2026-01-01", 1⟩ : StoredRecipe)] ∧
      mkRat 62 100 ≤ scoreDishMatch (normalizeDishKey (jsTrim "spag"))
        "spaghetti bolognese" := by
  have h := (c8_catalog_matcher.2.1
    [⟨"Spaghetti Bolognese", "spaghetti bolognese", "Recipe text.", "2026-01-01", 1⟩]
    "spag"
    ⟨"Spaghetti Bolognese", "spaghetti bolognese", "Recipe text.", "2026-01-01", 1⟩
    (by decide) (by decide))
  exact ⟨h.1, h.2.1⟩

/-! ## Claim C9 — idempotence of repeated step proposals -/

/-- The dish-name update performed before the lock checks. -/
def gateDishUpd (st : SessionSt) (cooking : String) : SessionSt :=
  { st with currentDish := if jsTrim cooking = "" then st.currentDish else jsTrim cooking }

theorem gate_empty (st : SessionSt) (cooking raw : String)
    (hs : sanitizePanelStep raw = "") :
    applyPanelStepGate st cooking raw = (.emptyStep, st) := by
  simp only [applyPanelStepGate]
  rw [if_pos hs]

theorem gate_broad (st : SessionSt) (cooking raw : String)
    (hs : sanitizePanelStep raw ≠ "")
    (hb : isStepTooBroad (sanitizePanelStep raw) = true) :
    applyPanelStepGate st cooking raw =
      (.tooBroad, addObservationS st ("step_rejected: \"" ++ raw ++ "\"")) := by
  simp only [applyPanelStepGate]
  rw [if_neg hs, if_pos hb]

theorem gate_edit (st : SessionSt) (cooking raw cur : String)
    (hs : sanitizePanelStep raw ≠ "")
    (hb : isStepTooBroad (sanitizePanelStep raw) = false)
    (hcur : st.currentStep = some cur)
    (hsame : isSameStep cur (sanitizePanelStep raw) = true) :
    applyPanelStepGate st cooking raw =
      (.lockedStep (sanitizePanelStep raw) false,
        { gateDishUpd st cooking with
          currentStep := some (sanitizePanelStep raw)
          pendingNextStep := none
          panel := some (cooking, sanitizePanelStep raw) }) := by
  simp only [applyPanelStepGate, gateDishUpd]
  rw [if_neg hs, if_neg (by simp [hb])]
  simp only [hcur]
  rw [if_pos hsame]

theorem gate_blocked (st : SessionSt) (cooking raw cur : String)
    (hs : sanitizePanelStep raw ≠ "")
    (hb : isStepTooBroad (sanitizePanelStep raw) = false)
    (hcur : st.currentStep = some cur)
    (hsame : isSameStep cur (sanitizePanelStep raw) = false)
    (hgate : st.frameAllowsStepAdvance = false) :
    applyPanelStepGate st cooking raw =
      (.blocked cur (sanitizePanelStep raw) (frameStatusStr st),
        addObservationS
          { gateDishUpd st cooking with pendingNextStep := some (sanitizePanelStep raw) }
          ("step_gate_blocked: waiting to finish \"" ++ cur ++ "\" before \"" ++
            sanitizePanelStep raw ++ "\".")) := by
  simp only [applyPanelStepGate, gateDishUpd]
  rw [if_neg hs, if_neg (by simp [hb])]
  simp only [hcur]
  rw [if_neg (by simp [hsame]), if_pos (by simp [hgate])]
  simp [frameStatusStr]

theorem gate_advance (st : SessionSt) (cooking raw cur : String)
    (hs : sanitizePanelStep raw ≠ "")
    (hb : isStepTooBroad (sanitizePanelStep raw) = false)
    (hcur : st.currentStep = some cur)
    (hsame : isSameStep cur (sanitizePanelStep raw) = false)
    (hgate : st.frameAllowsStepAdvance = true) :
    applyPanelStepGate st cooking raw =
      (.advancedTo (sanitizePanelStep raw),
        { markCurrentStepCompleted
            { gateDishUpd st cooking with pendingNextStep := some (sanitizePanelStep raw) } with
          currentStep := some (sanitizePanelStep raw)
          pendingNextStep := none
          panel := some (cooking, sanitizePanelStep raw) }) := by
  simp only [applyPanelStepGate, gateDishUpd]
  rw [if_neg hs, if_neg (by simp [hb])]
  simp only [hcur]
  rw [if_neg (by simp [hsame]), if_neg (by simp [hgate])]

/-- A step whose normalized key is nonempty is the same step as itself. -/
theorem isSameStep_self (s : String) (h : normalizeStepKey s ≠ "") :
    isSameStep s s = true := by
  unfold isSameStep
  rw [if_neg (by simp [h]), if_pos rfl]

/-- `isSameStep` only succeeds on nonempty normalized keys. -/
theorem isSameStep_key_ne (a b : String) (h : isSameStep a b = true) :
    normalizeStepKey b ≠ "" := by
  unfold isSameStep at h
  by_cases he : normalizeStepKey a = "" ∨ normalizeStepKey b = ""
  · rw [if_pos (by simp [he.elim (fun x => Or.inl x) fun x => Or.inr x])] at h
    · exact absurd h (by simp)
  · push_neg at he
    exact he.2

@[simp] theorem markCurrentStepCompleted_currentStep (st : SessionSt) :
    (markCurrentStepCompleted st).currentStep = st.currentStep := by
  unfold markCurrentStepCompleted
  cases hc : st.currentStep with
  | none => exact hc
  | some cur =>
    simp only
    split
    · exact hc
    · rfl

@[simp] theorem markCurrentStepCompleted_frameAllows (st : SessionSt) :
    (markCurrentStepCompleted st).frameAllowsStepAdvance = st.frameAllowsStepAdvance := by
  unfold markCurrentStepCompleted
  cases hc : st.currentStep with
  | none => rfl
  | some cur =>
    simp only
    split
    · rfl
    · rfl

/-- Marking completion of a step with an empty normalized key is a
no-op. -/
theorem markCurrentStepCompleted_empty_key (st : SessionSt) (s : String)
    (hcur : st.currentStep = some s) (hk : normalizeStepKey s = "") :
    markCurrentStepCompleted st = st := by
  unfold markCurrentStepCompleted
  rw [hcur]
  simp [hk]

/-- A step with an empty normalized key is never the same step as anything. -/
theorem isSameStep_empty (a b : String) (h : normalizeStepKey a = "") :
    isSameStep a b = false := by
  unfold isSameStep
  simp [h]

theorem mark_pend_noop (Y : SessionSt) (cooking raw : String)
    (hcurY : Y.currentStep = some (sanitizePanelStep raw))
    (hk : normalizeStepKey (sanitizePanelStep raw) = "") :
    markCurrentStepCompleted
        { gateDishUpd Y cooking with pendingNextStep := some (sanitizePanelStep raw) } =
      { gateDishUpd Y cooking with pendingNextStep := some (sanitizePanelStep raw) } :=
  markCurrentStepCompleted_empty_key _ _ (by simp [gateDishUpd, hcurY]) hk

/-- A blocked proposal leaves the completed-step records untouched. -/
theorem gate_keys_blocked (Y : SessionSt) (cooking raw cur : String)
    (hs : sanitizePanelStep raw ≠ "")
    (hb : isStepTooBroad (sanitizePanelStep raw) = false)
    (hcurY : Y.currentStep = some cur)
    (hsame : isSameStep cur (sanitizePanelStep raw) = false)
    (hgateY : Y.frameAllowsStepAdvance = false) :
    (applyPanelStepGate Y cooking raw).2.completedStepKeys = Y.completedStepKeys ∧
      (applyPanelStepGate Y cooking raw).2.completedSteps = Y.completedSteps := by
  rw [gate_blocked Y cooking raw cur hs hb hcurY hsame hgateY]
  constructor
  · simp [gateDishUpd]
  · simp [gateDishUpd]

/-- Proposing a step whose sanitized text is already the locked step
never changes the completed-step records, and when the normalized key is
nonempty it is treated as an edit of the same step. -/
theorem c9_second_call (Y : SessionSt) (cooking raw : String)
    (hs : sanitizePanelStep raw ≠ "")
    (hb : isStepTooBroad (sanitizePanelStep raw) = false)
    (hcurY : Y.currentStep = some (sanitizePanelStep raw)) :
    ((applyPanelStepGate Y cooking raw).2.completedStepKeys = Y.completedStepKeys ∧
      (applyPanelStepGate Y cooking raw).2.completedSteps = Y.completedSteps) ∧
    (normalizeStepKey (sanitizePanelStep raw) ≠ "" →
      (applyPanelStepGate Y cooking raw).1 =
        PanelResult.lockedStep (sanitizePanelStep raw) false) := by
  by_cases hk : normalizeStepKey (sanitizePanelStep raw) = ""
  · have hsame := isSameStep_empty (sanitizePanelStep raw) (sanitizePanelStep raw) hk
    cases hg : Y.frameAllowsStepAdvance with
    | false =>
      rw [gate_blocked Y cooking raw _ hs hb hcurY hsame hg]
      exact ⟨⟨by simp [gateDishUpd], by simp [gateDishUpd]⟩, fun hk2 => absurd hk hk2⟩
    | true =>
      rw [gate_advance Y cooking raw _ hs hb hcurY hsame hg]
      rw [mark_pend_noop Y cooking raw hcurY hk]
      exact ⟨⟨by simp [gateDishUpd], by simp [gateDishUpd]⟩, fun hk2 => absurd hk hk2⟩
  · have hsame := isSameStep_self (sanitizePanelStep raw) hk
    rw [gate_edit Y cooking raw _ hs hb hcurY hsame]
    exact ⟨⟨by simp [gateDishUpd], by simp [gateDishUpd]⟩, fun _ => rfl⟩

/-- **C9** (amended). When a step is locked, calling the panel step gate a
second time with the same raw step text never marks a step completed nor
adds any key to `completedStepKeys`; and when the sanitized text has a
nonempty normalized step key and the first call locked or advanced to it,
the second call is treated as an edit of the same step, returning
`lockedStep` with `advanced = false`. (The original claim fails when the
normalized key is empty: then the second call advances again instead of
reporting an edit.) -/
theorem c9_second_proposal_amended (st : SessionSt) (cooking raw cur : String)
    (hcur : st.currentStep = some cur) :
    ((applyPanelStepGate (applyPanelStepGate st cooking raw).2 cooking raw).2.completedStepKeys
        = (applyPanelStepGate st cooking raw).2.completedStepKeys ∧
      (applyPanelStepGate (applyPanelStepGate st cooking raw).2 cooking raw).2.completedSteps
        = (applyPanelStepGate st cooking raw).2.completedSteps) ∧
    (normalizeStepKey (sanitizePanelStep raw) ≠ "" →
      ((applyPanelStepGate st cooking raw).1 =
          PanelResult.lockedStep (sanitizePanelStep raw) false ∨
        (applyPanelStepGate st cooking raw).1 =
          PanelResult.advancedTo (sanitizePanelStep raw)) →
      (applyPanelStepGate (applyPanelStepGate st cooking raw).2 cooking raw).1
        = PanelResult.lockedStep (sanitizePanelStep raw) false) := by
  by_cases hs : sanitizePanelStep raw = ""
  · rw [gate_empty st cooking raw hs]
    dsimp only
    rw [gate_empty st cooking raw hs]
    exact ⟨⟨rfl, rfl⟩, fun hk2 _ => absurd (by rw [hs]; decide) hk2⟩
  · by_cases hbroad : isStepTooBroad (sanitizePanelStep raw) = true
    · rw [gate_broad st cooking raw hs hbroad]
      dsimp only
      rw [gate_broad _ cooking raw hs hbroad]
      refine ⟨⟨by simp, by simp⟩, fun _ hdisj => ?_⟩
      rcases hdisj with h | h <;> simp at h
    · have hb : isStepTooBroad (sanitizePanelStep raw) = false := by
        revert hbroad; cases isStepTooBroad (sanitizePanelStep raw) <;> simp
      by_cases hsame : isSameStep cur (sanitizePanelStep raw) = true
      · rw [gate_edit st cooking raw cur hs hb hcur hsame]
        dsimp only
        constructor
        · exact (c9_second_call _ cooking raw hs hb (by simp [gateDishUpd])).1
        · exact fun hk2 _ => (c9_second_call _ cooking raw hs hb (by simp [gateDishUpd])).2 hk2
      · have hsame' : isSameStep cur (sanitizePanelStep raw) = false := by
          revert hsame; cases isSameStep cur (sanitizePanelStep raw) <;> simp
        cases hgate : st.frameAllowsStepAdvance with
        | false =>
          rw [gate_blocked st cooking raw cur hs hb hcur hsame' hgate]
          dsimp only
          refine ⟨?_, fun _ hdisj => ?_⟩
          · exact gate_keys_blocked _ cooking raw cur hs hb
              (by simp [gateDishUpd, hcur]) hsame' (by simp [gateDishUpd, hgate])
          · rcases hdisj with h | h <;> simp at h
        | true =>
          rw [gate_advance st cooking raw cur hs hb hcur hsame' hgate]
          dsimp only
          constructor
          · exact (c9_second_call _ cooking raw hs hb (by simp [gateDishUpd])).1
          · exact fun hk2 _ => (c9_second_call _ cooking raw hs hb (by simp [gateDishUpd])).2 hk2

/-- A session in which the step "Grab 2 eggs." is locked and the latest
frame allows advancing. -/
def c9St : SessionSt :=
  { initialSessionSt with
    currentStep := some "Grab 2 eggs."
    frameAllowsStepAdvance := true }

/-- **C9** counterexample: proposing the raw step "?" twice in a row while
"Grab 2 eggs." is locked yields `advancedTo` on the second call as well —
the second call is not treated as an edit (`lockedStep _ false`), because
the sanitized text "?" has an empty normalized step key. -/
theorem c9_question_counterexample :
    ((applyPanelStepGate (applyPanelStepGate c9St "Pancakes" "?").2 "Pancakes" "?").1
        = PanelResult.advancedTo "?") ∧
      ∀ s b,
        (applyPanelStepGate (applyPanelStepGate c9St "Pancakes" "?").2 "Pancakes" "?").1
          ≠ PanelResult.lockedStep s b := by
  have h1 : (applyPanelStepGate (applyPanelStepGate c9St "Pancakes" "?").2 "Pancakes" "?").1
      = PanelResult.advancedTo "?" := by decide
  refine ⟨h1, fun s b h => ?_⟩
  rw [h1] at h
  exact PanelResult.noConfusion h

/-- A session in which the step "Whisk the eggs." is locked. -/
def c9WSt : SessionSt :=
  { initialSessionSt with currentStep := some "Whisk the eggs." }

/-- Witness for the amended C9 theorem at a concrete locked session. -/
theorem c9_second_proposal_witness :
    ((applyPanelStepGate (applyPanelStepGate c9WSt "Omelette" "Whisk the eggs.").2
          "Omelette" "Whisk the eggs.").2.completedStepKeys
        = (applyPanelStepGate c9WSt "Omelette" "Whisk the eggs.").2.completedStepKeys) ∧
      (applyPanelStepGate (applyPanelStepGate c9WSt "Omelette" "Whisk the eggs.").2
          "Omelette" "Whisk the eggs.").1
        = PanelResult.lockedStep (sanitizePanelStep "Whisk the eggs.") false := by
  have h := c9_second_proposal_amended c9WSt "Omelette" "Whisk the eggs."
    "Whisk the eggs." rfl
  exact ⟨h.1.1, h.2 (by decide) (Or.inl (by decide))⟩

/-! ## Claim C6 — termination of the tool-call resolution loop -/

/-- One successful round with at least one call advances the loop by one
round index while consuming one unit of fuel. -/
theorem resolveAux_step_ok (env : ExecEnv) (responses : Nat → ModelResponse)
    (st : SessionSt) (fuel i : Nat)
    (hne : (responses i).functionCalls ≠ [])
    (hok : (runCalls env (responses i).functionCalls (loopState env responses st i)).1
      = none) :
    resolveAux env responses (fuel + 1) i (loopState env responses st i)
      = resolveAux env responses fuel (i + 1) (loopState env responses st (i + 1)) := by
  have hpair : runCalls env (responses i).functionCalls (loopState env responses st i)
      = (none, loopState env responses st (i + 1)) := by
    have h1 : loopState env responses st (i + 1)
        = (runCalls env (responses i).functionCalls (loopState env responses st i)).2 := rfl
    rw [h1, ← hok]
  simp only [resolveAux]
  cases hc : (responses i).functionCalls with
  | nil => exact absurd hc hne
  | cons c cs =>
    rw [hc] at hpair
    simp only [hpair]

/-- A zero-call round ends the loop: the free text becomes the finished
note and is recorded via `recordAssistantNote`. -/
theorem resolveAux_quiet (env : ExecEnv) (responses : Nat → ModelResponse)
    (fuel i : Nat) (stq : SessionSt)
    (hc : (responses i).functionCalls = []) :
    resolveAux env responses (fuel + 1) i stq
      = (.finished (if jsTrim (responses i).outputText = "" then none
            else some (jsTrim (responses i).outputText)),
         recordAssistantNote stq (responses i).outputText) := by
  simp only [resolveAux, hc]

/-- A thrown tool error ends the loop with that error. -/
theorem resolveAux_error (env : ExecEnv) (responses : Nat → ModelResponse)
    (fuel i : Nat) (stq st2 : SessionSt) (e : String)
    (hne : (responses i).functionCalls ≠ [])
    (he : runCalls env (responses i).functionCalls stq = (some e, st2)) :
    resolveAux env responses (fuel + 1) i stq = (.errored e, st2) := by
  simp only [resolveAux]
  cases hc : (responses i).functionCalls with
  | nil => exact absurd hc hne
  | cons c cs =>
    rw [hc] at he
    simp only [he]

/-- After `k ≤ 8` successful non-quiet rounds the loop sits at round `k`
with `8 - k` units of fuel left. -/
theorem resolveResponse_to_round (env : ExecEnv) (responses : Nat → ModelResponse)
    (st : SessionSt) (k : Nat) (hk : k ≤ 8)
    (hok : ∀ j, j < k → (responses j).functionCalls ≠ [] ∧
      (runCalls env (responses j).functionCalls (loopState env responses st j)).1 = none) :
    resolveResponse env responses st
      = resolveAux env responses (8 - k) k (loopState env responses st k) := by
  induction k with
  | zero => rfl
  | succ k ih =>
    have hkk : k ≤ 8 := Nat.le_of_succ_le hk
    have ih2 := ih hkk (fun j hj => hok j (Nat.lt_succ_of_lt hj))
    rw [ih2]
    have h8 : 8 - k = (8 - (k + 1)) + 1 := by omega
    rw [h8]
    exact resolveAux_step_ok env responses st (8 - (k + 1)) k
      (hok k (Nat.lt_succ_self k)).1 (hok k (Nat.lt_succ_self k)).2

/-- **C6** (amended). The tool-call resolution loop always terminates for
one event, in exactly one of three ways: (A) if every one of the first 8
rounds makes at least one call and none of them throws, the loop fails
fatally with the tool-loop-exceeded error after exactly 8 rounds; (B) a
zero-call round ends the loop, with the free text recorded only as an
internal note (conversation entry plus observation) and never auto-voiced
(the `spoken` transcript is unchanged by the final round); (C) a round
whose tool execution throws ends the loop with that error instead — the
original claim's dichotomy omits this third outcome. -/
theorem c6_tool_loop_amended (env : ExecEnv) (responses : Nat → ModelResponse)
    (st : SessionSt) :
    ((∀ j, j < 8 → (responses j).functionCalls ≠ [] ∧
        (runCalls env (responses j).functionCalls (loopState env responses st j)).1 = none) →
      resolveResponse env responses st
        = (.exceeded, loopState env responses st 8)) ∧
    (∀ k, k < 8 →
      (∀ j, j < k → (responses j).functionCalls ≠ [] ∧
        (runCalls env (responses j).functionCalls (loopState env responses st j)).1 = none) →
      (responses k).functionCalls = [] →
      resolveResponse env responses st
        = (.finished (if jsTrim (responses k).outputText = "" then none
              else some (jsTrim (responses k).outputText)),
           recordAssistantNote (loopState env responses st k) (responses k).outputText) ∧
      (resolveResponse env responses st).2.spoken
        = (loopState env responses st k).spoken) ∧
    (∀ k e st2, k < 8 →
      (∀ j, j < k → (responses j).functionCalls ≠ [] ∧
        (runCalls env (responses j).functionCalls (loopState env responses st j)).1 = none) →
      (responses k).functionCalls ≠ [] →
      runCalls env (responses k).functionCalls (loopState env responses st k)
        = (some e, st2) →
      resolveResponse env responses st = (.errored e, st2)) := by
  refine ⟨?_, ?_, ?_⟩
  · intro hok
    have h := resolveResponse_to_round env responses st 8 (Nat.le_refl 8) hok
    rw [h]
    rfl
  · intro k hk hok hquiet
    have h := resolveResponse_to_round env responses st k (Nat.le_of_lt hk) hok
    have h8 : 8 - k = (8 - (k + 1)) + 1 := by omega
    rw [h8] at h
    rw [h, resolveAux_quiet env responses (8 - (k + 1)) k _ hquiet]
    exact ⟨rfl, by simp⟩
  · intro k e st2 hk hok hne he
    have h := resolveResponse_to_round env responses st k (Nat.le_of_lt hk) hok
    have h8 : 8 - k = (8 - (k + 1)) + 1 := by omega
    rw [h8] at h
    rw [h]
    exact resolveAux_error env responses (8 - (k + 1)) k _ st2 e hne he

/-- A model that requests a `speak` call with no arguments every round. -/
def c6RespBad : Nat → ModelResponse :=
  fun _ => ⟨[⟨"speak", "call1", []⟩], ""⟩

/-- **C6** counterexample: a model that issues a malformed `speak` call
makes at least one call every round, yet the loop neither ends via a
zero-call round nor fails with the tool-loop-exceeded error: the thrown
`Missing string argument` error ends it on the first round. -/
theorem c6_tool_error_counterexample :
    (∀ k, (c6RespBad k).functionCalls ≠ []) ∧
      resolveResponse defaultEnv c6RespBad initialSessionSt
        = (LoopOutcome.errored "Missing string argument: message", initialSessionSt) ∧
      (resolveResponse defaultEnv c6RespBad initialSessionSt).1 ≠ LoopOutcome.exceeded := by
  refine ⟨fun k h => List.noConfusion h, rfl, by decide⟩

/-- A model that calls `stay_silent` every round. -/
def c6RespLoop : Nat → ModelResponse :=
  fun _ => ⟨[⟨"stay_silent", "call1", [("reason", JsVal.str "waiting")]⟩], ""⟩

/-- Witness for the amended C6 theorem: eight well-formed `stay_silent`
rounds exhaust the fuel and fail with the tool-loop-exceeded outcome. -/
theorem c6_tool_loop_witness :
    resolveResponse defaultEnv c6RespLoop initialSessionSt
      = (LoopOutcome.exceeded, loopState defaultEnv c6RespLoop initialSessionSt 8) :=
  (c6_tool_loop_amended defaultEnv c6RespLoop initialSessionSt).1 (by decide)

end YesChef
